import Mathlib

/-!
# Verification of the fashion-ecommerce backend order workflow

A shallow embedding of the NestJS/Mongoose services of the repository
(`OrdersService`, `CartService`, `ProductsService`) as pure Lean functions
over an explicit database state, together with theorems settling the
specification claims about atomic order creation, stock accounting,
snapshot immutability, cancellation, the order-status lifecycle, variant
attribute validation and cart merging.

Modelling conventions:
* Mongo ObjectIds are modelled as `Nat`.
* `variant.stock` is an `Int` (the schema declares `min: 0`; keeping the
  type signed lets non-negativity be a provable invariant rather than a
  typing artefact).
* Prices and monetary amounts are `ℚ` (JS numbers, declared `min: 0`).
* A Mongoose transaction is modelled by running the transaction body on a
  session copy of the database; `commitTransaction` installs the session
  state, `abortTransaction` discards it and returns the pre-call state.
* `updateOne` with filter `{_id, 'variants.sku': s, 'variants.stock': {$gte: q}}`
  and update `{$inc: {'variants.$.stock': -q}}` is modelled as decrementing
  the first variant that satisfies both array conditions at once
  (`$elemMatch`-style); `modifiedCount = 0` corresponds to `none`.
-/

namespace ECom

/-- A purchasable variant of a product (`ProductVariant` in
`product.schema.ts`): globally unique SKU, dynamic attribute map, stock,
price, image gallery. Attributes are modelled as an association list. -/
structure Variant where
  sku : String
  attributes : List (String × String)
  stock : Int
  price : ℚ
  images : List String
  deriving DecidableEq, Repr

/-- A variation axis (`ProductOption` in `product.schema.ts`). -/
structure ProductOption where
  name : String
  values : List String
  deriving DecidableEq, Repr

/-- A product (`Product` in `product.schema.ts`); fields not used by the
order/cart workflow (description, category, tags) are omitted. -/
structure Product where
  id : Nat
  title : String
  basePrice : ℚ
  options : List ProductOption
  variants : List Variant
  deriving DecidableEq, Repr

/-- A cart line item (`CartItem` in `cart.schema.ts`). -/
structure CartItem where
  productId : Nat
  variantSku : String
  quantity : Nat
  deriving DecidableEq, Repr

/-- A user's cart (`Cart` in `cart.schema.ts`): one per user id. -/
structure Cart where
  userId : Nat
  items : List CartItem
  deriving DecidableEq, Repr

/-- `OrderStatus` enum of `order.schema.ts`. -/
inductive OrderStatus where
  | PENDING
  | PAID
  | SHIPPED
  | DELIVERED
  | CANCELLED
  deriving DecidableEq, Repr

/-- The frozen purchase-time copy of product data stored inside an order
item (`OrderItem.snapshot` in `order.schema.ts`). -/
structure Snapshot where
  title : String
  price : ℚ
  image : Option String
  attributes : List (String × String)
  deriving DecidableEq, Repr

/-- An order line item (`OrderItem` in `order.schema.ts`). -/
structure OrderItem where
  productId : Nat
  variantSku : String
  quantity : Nat
  snapshot : Snapshot
  deriving DecidableEq, Repr

/-- A shipping address (`CreateOrderDto.shippingAddress`). -/
structure Address where
  street : String
  city : String
  state : String
  zip : String
  country : String
  deriving DecidableEq, Repr

/-- An order (`Order` in `order.schema.ts`). -/
structure Order where
  id : Nat
  userId : Nat
  orderNumber : String
  items : List OrderItem
  totalAmount : ℚ
  status : OrderStatus
  shippingAddress : Address
  deriving DecidableEq, Repr

/-- The persistent state the services operate on: the `products`, `carts`
and `orders` collections. -/
structure DB where
  products : List Product
  carts : List Cart
  orders : List Order
  deriving DecidableEq, Repr

/-- The client-visible error taxonomy: each constructor corresponds to one
`NotFoundException` / `BadRequestException` thrown by the services, carrying
the data interpolated into its message. -/
inductive SvcError where
  | emptyCart
  | productNotFound (productId : Nat)
  | variantNotFound (sku : String)
  | insufficientStock (available : Int) (requested : Nat)
  | stockConflict (sku : String)
  | insufficientStockCombined (available : Int) (inCart : Nat) (adding : Nat)
  | orderNotFound
  | invalidStateTransition (current : OrderStatus)
  | cartNotFound
  | itemNotFound
  | invalidAttribute (key : String) (sku : String)
  deriving DecidableEq, Repr

/-- `productModel.findById`: first product with the given id. -/
def findProduct (ps : List Product) (pid : Nat) : Option Product :=
  ps.find? (fun p => p.id == pid)

/-- `cartModel.findOne({userId})`: first cart with the given user id. -/
def findCart (db : DB) (uid : Nat) : Option Cart :=
  db.carts.find? (fun c => c.userId == uid)

/-- The stock currently recorded for `(pid, sku)`: resolves the first
product with id `pid` and its first variant with the given SKU. -/
def stockOf (ps : List Product) (pid : Nat) (sku : String) : Option Int :=
  (findProduct ps pid).bind fun p =>
    (p.variants.find? (fun v => v.sku == sku)).map Variant.stock

/-- The price currently recorded for `(pid, sku)`. -/
def priceOf (ps : List Product) (pid : Nat) (sku : String) : Option ℚ :=
  (findProduct ps pid).bind fun p =>
    (p.variants.find? (fun v => v.sku == sku)).map Variant.price

/-- The conditional decrement on one product's variant array: decrement the
first variant carrying the SKU whose stock still covers the request;
`none` when no variant matches both conditions (`modifiedCount = 0`). -/
def decVariants : List Variant → String → Nat → Option (List Variant)
  | [], _, _ => none
  | v :: vs, sku, q =>
    if v.sku = sku ∧ (q : Int) ≤ v.stock then
      some ({ v with stock := v.stock - q } :: vs)
    else
      (decVariants vs sku q).map (v :: ·)

/-- `productModel.updateOne({_id, 'variants.sku', 'variants.stock': {$gte: q}},
{$inc: {'variants.$.stock': -q}})`: conditional stock decrement on the
product with the given id; `none` models `modifiedCount = 0`. -/
def decVariant : List Product → Nat → String → Nat → Option (List Product)
  | [], _, _, _ => none
  | p :: ps, pid, sku, q =>
    if p.id = pid then
      (decVariants p.variants sku q).map (fun vs => { p with variants := vs } :: ps)
    else
      (decVariant ps pid sku q).map (p :: ·)

/-- The unconditional increment on one product's variant array: increment
the first variant carrying the SKU; a missing SKU leaves the array as is. -/
def incVariants : List Variant → String → Nat → List Variant
  | [], _, _ => []
  | v :: vs, sku, q =>
    if v.sku = sku then { v with stock := v.stock + q } :: vs
    else v :: incVariants vs sku q

/-- `productModel.updateOne({_id, 'variants.sku'}, {$inc: {'variants.$.stock': q}})`:
unconditional stock increment; a missing product or SKU is a silent no-op. -/
def incVariant : List Product → Nat → String → Nat → List Product
  | [], _, _, _ => []
  | p :: ps, pid, sku, q =>
    if p.id = pid then { p with variants := incVariants p.variants sku q } :: ps
    else p :: incVariant ps pid sku q

/-- `variant.images[0] || null`: JS truthiness turns an empty first string
into `null` as well as an absent one. -/
def jsImageHead (images : List String) : Option String :=
  match images.head? with
  | some s => if s = "" then none else some s
  | none => none

/-- The purchase-time snapshot built in `createOrder`: title from the
product, price/image/attributes from the variant, attributes flattened. -/
def mkSnapshot (product : Product) (variant : Variant) : Snapshot :=
  { title := product.title
    price := variant.price
    image := jsImageHead variant.images
    attributes := variant.attributes }

/-- The order item pushed onto `orderItems` for one processed cart line:
product id, the variant's SKU, the requested quantity, and the frozen
snapshot. -/
def mkOrderItem (product : Product) (variant : Variant) (quantity : Nat) : OrderItem :=
  { productId := product.id
    variantSku := variant.sku
    quantity := quantity
    snapshot := mkSnapshot product variant }

/-- The per-item loop of `OrdersService.createOrder`, threading the session
view of the products collection: resolve product and variant, validate
stock, conditionally decrement, build the snapshot order item, accumulate
the total. The first failure aborts the whole loop with its error. -/
def processItems (ps : List Product) :
    List CartItem → Except SvcError (List Product × List OrderItem × ℚ)
  | [] => .ok (ps, [], 0)
  | item :: rest =>
    match findProduct ps item.productId with
    | none => .error (.productNotFound item.productId)
    | some product =>
      match product.variants.find? (fun v => v.sku == item.variantSku) with
      | none => .error (.variantNotFound item.variantSku)
      | some variant =>
        if variant.stock < (item.quantity : Int) then
          .error (.insufficientStock variant.stock item.quantity)
        else
          match decVariant ps product.id item.variantSku item.quantity with
          | none => .error (.stockConflict item.variantSku)
          | some ps' =>
            match processItems ps' rest with
            | .error e => .error e
            | .ok (psFinal, ois, total) =>
              .ok (psFinal, mkOrderItem product variant item.quantity :: ois,
                variant.price * item.quantity + total)

/-- `cartModel.updateOne({userId}, {$set: {items}})`. -/
def setCartItems (carts : List Cart) (uid : Nat) (items : List CartItem) : List Cart :=
  carts.map fun c => if c.userId = uid then { c with items := items } else c

/-- The body of the `createOrder` transaction (everything between
`startTransaction` and `commitTransaction`): load the cart, process every
item, build the order (status PENDING), append it, clear the cart. -/
def createOrderTx (db : DB) (userId : Nat) (addr : Address) (oid : Nat)
    (orderNumber : String) : Except SvcError (DB × Order) :=
  match findCart db userId with
  | none => .error .emptyCart
  | some cart =>
    if cart.items = [] then .error .emptyCart
    else
      match processItems db.products cart.items with
      | .error e => .error e
      | .ok (ps', orderItems, totalAmount) =>
        let order : Order :=
          { id := oid
            userId := userId
            orderNumber := orderNumber
            items := orderItems
            totalAmount := totalAmount
            status := .PENDING
            shippingAddress := addr }
        .ok ({ products := ps'
               carts := setCartItems db.carts userId []
               orders := db.orders ++ [order] }, order)

/-- `OrdersService.createOrder`: run the transaction body on the session;
commit its state on success, abort (discard it, keep the pre-call state)
and rethrow on any failure. The generated order id and order number are
passed in (`Date.now`/`Math.random` are external inputs). -/
def createOrder (db : DB) (userId : Nat) (addr : Address) (oid : Nat)
    (orderNumber : String) : DB × Except SvcError Order :=
  match createOrderTx db userId addr oid orderNumber with
  | .ok (db', order) => (db', .ok order)
  | .error e => (db, .error e)

/-- `order.save()` after mutating the status field: update the status of
the first order with the given id. -/
def setOrderStatus : List Order → Nat → OrderStatus → List Order
  | [], _, _ => []
  | o :: os, oid, st =>
    if o.id = oid then { o with status := st } :: os
    else o :: setOrderStatus os oid st

/-- The stock-restoration loop of `cancelOrder`: for every order item, an
unconditional `$inc` of the variant's stock by the item's quantity. -/
def restoreStock (ps : List Product) : List OrderItem → List Product
  | [] => ps
  | item :: rest =>
    restoreStock (incVariant ps item.productId item.variantSku item.quantity) rest

/-- `OrdersService.cancelOrder`: inside a transaction, load the order by
(id, owner), reject a missing order, reject any status other than PENDING
naming the current status, restore stock for every item, set the status to
CANCELLED and commit. -/
def cancelOrder (db : DB) (orderId : Nat) (userId : Nat) :
    DB × Except SvcError Order :=
  match db.orders.find? (fun o => o.id == orderId && o.userId == userId) with
  | none => (db, .error .orderNotFound)
  | some order =>
    if order.status = .PENDING then
      ({ products := restoreStock db.products order.items
         carts := db.carts
         orders := setOrderStatus db.orders orderId .CANCELLED },
       .ok { order with status := .CANCELLED })
    else
      (db, .error (.invalidStateTransition order.status))

/-- `OrdersService.updateStatus`: load the order by id, reject a missing
order, then set the status field unconditionally — no transition-graph
check of any kind. -/
def updateStatus (db : DB) (orderId : Nat) (newStatus : OrderStatus) :
    DB × Except SvcError Order :=
  match db.orders.find? (fun o => o.id == orderId) with
  | none => (db, .error .orderNotFound)
  | some order =>
    ({ db with orders := setOrderStatus db.orders orderId newStatus },
     .ok { order with status := newStatus })

/-- `AddToCartDto`: product id, variant SKU, quantity (zod: integer ≥ 1). -/
structure AddToCartDto where
  productId : Nat
  variantSku : String
  quantity : Nat
  deriving DecidableEq, Repr

/-- The merge step of `addToCart` for a cart known to exist: if a line item
with the same product id and SKU is already present (first occurrence, as
`findIndex`), re-validate the combined quantity against live stock and
update it in place; otherwise push a new line item at the end. -/
def mergeCartItem (stock : Int) (dto : AddToCartDto) :
    List CartItem → Except SvcError (List CartItem)
  | [] => .ok [{ productId := dto.productId, variantSku := dto.variantSku,
                 quantity := dto.quantity }]
  | item :: rest =>
    if item.productId = dto.productId ∧ item.variantSku = dto.variantSku then
      if stock < ((item.quantity + dto.quantity : Nat) : Int) then
        .error (.insufficientStockCombined stock item.quantity dto.quantity)
      else
        .ok ({ item with quantity := item.quantity + dto.quantity } :: rest)
    else
      (mergeCartItem stock dto rest).map (item :: ·)

/-- `CartService.addToCart`: resolve product and variant, validate the
requested quantity against live stock, find or create the user's cart, then
merge the line item (summing quantities and re-validating when the same
product/SKU pair is already present). Stock is never decremented here. -/
def addToCart (db : DB) (userId : Nat) (dto : AddToCartDto) :
    DB × Except SvcError (List CartItem) :=
  match findProduct db.products dto.productId with
  | none => (db, .error (.productNotFound dto.productId))
  | some product =>
    match product.variants.find? (fun v => v.sku == dto.variantSku) with
    | none => (db, .error (.variantNotFound dto.variantSku))
    | some variant =>
      if variant.stock < (dto.quantity : Int) then
        (db, .error (.insufficientStock variant.stock dto.quantity))
      else
        match findCart db userId with
        | some cart =>
          match mergeCartItem variant.stock dto cart.items with
          | .error e => (db, .error e)
          | .ok items' =>
            ({ db with carts := setCartItems db.carts userId items' }, .ok items')
        | none =>
          let items' : List CartItem :=
            [{ productId := dto.productId, variantSku := dto.variantSku,
               quantity := dto.quantity }]
          ({ db with carts := db.carts ++ [{ userId := userId, items := items' }] },
           .ok items')

/-- `CartService.updateCartItem`: the cart item's Mongo subdocument id is
modelled as its position in the item list. Resolve cart, item, product and
variant, validate the new quantity against live stock, set it. -/
def updateCartItem (db : DB) (userId : Nat) (itemIdx : Nat) (quantity : Nat) :
    DB × Except SvcError (List CartItem) :=
  match findCart db userId with
  | none => (db, .error .cartNotFound)
  | some cart =>
    match cart.items[itemIdx]? with
    | none => (db, .error .itemNotFound)
    | some cartItem =>
      match findProduct db.products cartItem.productId with
      | none => (db, .error (.productNotFound cartItem.productId))
      | some product =>
        match product.variants.find? (fun v => v.sku == cartItem.variantSku) with
        | none => (db, .error (.variantNotFound cartItem.variantSku))
        | some variant =>
          if variant.stock < (quantity : Int) then
            (db, .error (.insufficientStock variant.stock quantity))
          else
            let items' := cart.items.set itemIdx { cartItem with quantity := quantity }
            ({ db with carts := setCartItems db.carts userId items' }, .ok items')

/-- `CartService.removeCartItem`: splice the item (by position) out of the
cart. -/
def removeCartItem (db : DB) (userId : Nat) (itemIdx : Nat) :
    DB × Except SvcError (List CartItem) :=
  match findCart db userId with
  | none => (db, .error .cartNotFound)
  | some cart =>
    match cart.items[itemIdx]? with
    | none => (db, .error .itemNotFound)
    | some _ =>
      let items' := cart.items.eraseIdx itemIdx
      ({ db with carts := setCartItems db.carts userId items' }, .ok items')

/-- `CartService.clearCart`: set the cart's item list to empty (no error if
the cart does not exist). -/
def clearCart (db : DB) (userId : Nat) : DB :=
  { db with carts := setCartItems db.carts userId [] }

/-- `ProductsService.validateVariantAttributes` inner loop: the first
attribute key of a variant that is not among the valid option names. -/
def findInvalidKey (optionNames : List String) :
    List (String × String) → Option String
  | [] => none
  | (k, _) :: rest =>
    if optionNames.contains k then findInvalidKey optionNames rest
    else some k

/-- `ProductsService.validateVariantAttributes`: every attribute key of
every variant must be one of the option names; the first violation raises
`BadRequestException` naming the key and the variant's SKU. -/
def validateVariantAttributes (options : List ProductOption) :
    List Variant → Except SvcError Unit
  | [] => .ok ()
  | v :: vs =>
    match findInvalidKey (options.map ProductOption.name) v.attributes with
    | some k => .error (.invalidAttribute k v.sku)
    | none => validateVariantAttributes options vs

/-- `CreateProductDto` (fields used by the model). -/
structure CreateProductDto where
  title : String
  basePrice : ℚ
  options : List ProductOption
  variants : List Variant
  deriving DecidableEq, Repr

/-- `ProductsService.create`: service-level attribute validation, then
insert the new product. -/
def createProduct (db : DB) (newId : Nat) (dto : CreateProductDto) :
    DB × Except SvcError Product :=
  match validateVariantAttributes dto.options dto.variants with
  | .error e => (db, .error e)
  | .ok _ =>
    let p : Product :=
      { id := newId, title := dto.title, basePrice := dto.basePrice,
        options := dto.options, variants := dto.variants }
    ({ db with products := db.products ++ [p] }, .ok p)

/-- `UpdateProductDto`: all fields optional for partial updates. -/
structure UpdateProductDto where
  title : Option String
  basePrice : Option ℚ
  options : Option (List ProductOption)
  variants : Option (List Variant)
  deriving DecidableEq, Repr

/-- `findByIdAndUpdate(id, updateDto)`: `$set` of exactly the fields the
partial dto provides. -/
def applyProductUpdate (p : Product) (dto : UpdateProductDto) : Product :=
  { p with
    title := dto.title.getD p.title
    basePrice := dto.basePrice.getD p.basePrice
    options := dto.options.getD p.options
    variants := dto.variants.getD p.variants }

/-- Replace the first product with the given id. -/
def setProduct : List Product → Nat → Product → List Product
  | [], _, _ => []
  | p :: ps, pid, p' =>
    if p.id = pid then p' :: ps else p :: setProduct ps pid p'

/-- `ProductsService.update`: re-validate attribute consistency only when
the dto updates both options and variants (against each other) or only
variants (against the existing options); a dto updating only options is
applied without any validation. -/
def updateProduct (db : DB) (pid : Nat) (dto : UpdateProductDto) :
    DB × Except SvcError Product :=
  match findProduct db.products pid with
  | none => (db, .error (.productNotFound pid))
  | some existing =>
    let validation : Except SvcError Unit :=
      match dto.options, dto.variants with
      | some os, some vs => validateVariantAttributes os vs
      | none, some vs => validateVariantAttributes existing.options vs
      | _, none => .ok ()
    match validation with
    | .error e => (db, .error e)
    | .ok _ =>
      let p' := applyProductUpdate existing dto
      ({ db with products := setProduct db.products pid p' }, .ok p')

/-- `ProductsService.delete`: remove the product with the given id. -/
def deleteProduct (db : DB) (pid : Nat) : DB × Except SvcError Unit :=
  match findProduct db.products pid with
  | none => (db, .error (.productNotFound pid))
  | some _ =>
    ({ db with products := db.products.filter (fun p => p.id != pid) }, .ok ())

/-- One invocation of any state-changing service operation, with its
request parameters. -/
inductive Op where
  | createOrder (uid : Nat) (addr : Address) (oid : Nat) (orderNumber : String)
  | cancelOrder (orderId uid : Nat)
  | updateStatus (orderId : Nat) (st : OrderStatus)
  | addToCart (uid : Nat) (dto : AddToCartDto)
  | updateCartItem (uid itemIdx quantity : Nat)
  | removeCartItem (uid itemIdx : Nat)
  | clearCart (uid : Nat)
  | createProduct (newId : Nat) (dto : CreateProductDto)
  | updateProduct (pid : Nat) (dto : UpdateProductDto)
  | deleteProduct (pid : Nat)

/-- The state reached by executing one operation (failures leave the state
unchanged by construction of each service function). -/
def applyOp (db : DB) : Op → DB
  | .createOrder uid addr oid onum => (createOrder db uid addr oid onum).1
  | .cancelOrder orderId uid => (cancelOrder db orderId uid).1
  | .updateStatus orderId st => (updateStatus db orderId st).1
  | .addToCart uid dto => (addToCart db uid dto).1
  | .updateCartItem uid i q => (updateCartItem db uid i q).1
  | .removeCartItem uid i => (removeCartItem db uid i).1
  | .clearCart uid => clearCart db uid
  | .createProduct newId dto => (createProduct db newId dto).1
  | .updateProduct pid dto => (updateProduct db pid dto).1
  | .deleteProduct pid => (deleteProduct db pid).1

/-- The guarantees the upstream zod validation layer provides on request
payloads before they reach the services: product variants never carry
negative stock or price (`z.number().min(0)`), and cart quantities are at
least 1 (`z.number().int().min(1)`). -/
def opValid : Op → Prop
  | .addToCart _ dto => 1 ≤ dto.quantity
  | .updateCartItem _ _ q => 1 ≤ q
  | .createProduct _ dto => ∀ v ∈ dto.variants, 0 ≤ v.stock ∧ 0 ≤ v.price
  | .updateProduct _ dto =>
      ∀ vs, dto.variants = some vs → ∀ v ∈ vs, 0 ≤ v.stock ∧ 0 ≤ v.price
  | _ => True

/-- States reachable from a starting state by any sequence of validated
service operations. -/
inductive Reachable : DB → DB → Prop
  | refl (db : DB) : Reachable db db
  | step {db1 db2 : DB} (h : Reachable db1 db2) (op : Op) (hv : opValid op) :
      Reachable db1 (applyOp db2 op)

/-- Total quantity a cart requests for one `(productId, sku)` pair. -/
def cartQty (items : List CartItem) (pid : Nat) (sku : String) : Nat :=
  ((items.filter (fun i => i.productId == pid && i.variantSku == sku)).map
    CartItem.quantity).sum

/-- Total quantity an order's items carry for one `(productId, sku)` pair. -/
def itemsQty (ois : List OrderItem) (pid : Nat) (sku : String) : Nat :=
  ((ois.filter (fun o => o.productId == pid && o.variantSku == sku)).map
    OrderItem.quantity).sum

/-- Modelled from the spec's total formula `Σ(variant.price × quantity)`:
the sum, over the cart's line items, of the resolved variant's price times
the requested quantity. Stated from the spec to compare against the
service's accumulated `totalAmount`. -/
def cartTotal (ps : List Product) (items : List CartItem) : ℚ :=
  (items.map (fun i => (priceOf ps i.productId i.variantSku).getD 0 * i.quantity)).sum

/-- The string value of each `OrderStatus` enum member. -/
def statusName : OrderStatus → String
  | .PENDING => "PENDING"
  | .PAID => "PAID"
  | .SHIPPED => "SHIPPED"
  | .DELIVERED => "DELIVERED"
  | .CANCELLED => "CANCELLED"

/-- The message of the `BadRequestException` thrown by `cancelOrder` on a
non-PENDING order, interpolating the order's current status. -/
def invalidStateMessage (st : OrderStatus) : String :=
  "Cannot cancel order with status " ++ statusName st
    ++ ". Only PENDING orders can be cancelled."

/-- Every variant's stock in a products collection is non-negative. -/
def stocksNonnegP (ps : List Product) : Prop :=
  ∀ p ∈ ps, ∀ v ∈ p.variants, 0 ≤ v.stock

/-- Every variant's stock in the database is non-negative. -/
def stocksNonneg (db : DB) : Prop :=
  stocksNonnegP db.products

/-- The subset invariant of the data model: every attribute key of every
variant of the product is one of the product's option names. -/
def attrsSubsetOptions (p : Product) : Prop :=
  ∀ v ∈ p.variants, ∀ kv ∈ v.attributes, kv.1 ∈ p.options.map ProductOption.name

/-- Mongo's `_id` uniqueness on the orders collection. -/
def ordersWf (db : DB) : Prop :=
  (db.orders.map Order.id).Nodup

/-- Identifier freshness the storage layer guarantees for inserts: a newly
generated order or product `_id` does not collide with an existing one. -/
def opOk (db : DB) : Op → Prop
  | .createOrder _ _ oid _ => ∀ o ∈ db.orders, o.id ≠ oid
  | .createProduct newId _ => ∀ p ∈ db.products, p.id ≠ newId
  | _ => True

/-- Every operation except the admin-only status update. -/
def nonAdmin : Op → Prop
  | .updateStatus _ _ => False
  | _ => True

/-- States reachable without ever invoking the administrative status
update, under the storage layer's id-freshness guarantees. -/
inductive UserReachable : DB → DB → Prop
  | refl (db : DB) : UserReachable db db
  | step {db1 db2 : DB} (h : UserReachable db1 db2) (op : Op) (hv : opValid op)
      (hok : opOk db2 op) (hna : nonAdmin op) : UserReachable db1 (applyOp db2 op)

/-! ### Concrete fixtures (the spec's scenarios) -/

/-- Variant A of the spec's success scenario: stock 5, price 100. -/
def variantA : Variant :=
  { sku := "SKU-A", attributes := [("Color", "Red")], stock := 5, price := 100,
    images := ["red.jpg"] }

/-- Product 1 holding variant A. -/
def productA : Product :=
  { id := 1, title := "Shirt", basePrice := 100,
    options := [{ name := "Color", values := ["Red"] }], variants := [variantA] }

/-- Variant B of the spec's insufficient-stock scenario: stock 3. -/
def variantB : Variant :=
  { sku := "SKU-B", attributes := [("Size", "M")], stock := 3, price := 50,
    images := [] }

/-- Product 2 holding variant B. -/
def productB : Product :=
  { id := 2, title := "Pants", basePrice := 50,
    options := [{ name := "Size", values := ["M"] }], variants := [variantB] }

/-- A shipping address fixture. -/
def exAddr : Address :=
  { street := "1 Main St", city := "Pune", state := "MH", zip := "411001",
    country := "IN" }

/-- A database with no carts at all (user 7's checkout must fail). -/
def dbNoCart : DB := { products := [productA], carts := [], orders := [] }

/-- The success scenario: user 7's cart requests quantity 2 of variant A. -/
def dbScenarioA : DB :=
  { products := [productA],
    carts := [{ userId := 7,
                items := [{ productId := 1, variantSku := "SKU-A", quantity := 2 }] }],
    orders := [] }

/-- The failure scenario: user 7's cart requests quantity 10 of variant B
whose stock is 3. -/
def dbScenarioB : DB :=
  { products := [productB],
    carts := [{ userId := 7,
                items := [{ productId := 2, variantSku := "SKU-B", quantity := 10 }] }],
    orders := [] }

/-- An order of user 7 over variant A, snapshot price 100, status PENDING. -/
def exOrder : Order :=
  { id := 100, userId := 7, orderNumber := "ORD-1", totalAmount := 200,
    items := [{ productId := 1,
                variantSku := "SKU-A",
                quantity := 2,
                snapshot := { title := "Shirt",
                              price := 100,
                              image := some "red.jpg",
                              attributes := [("Color", "Red")] } }],
    status := .PENDING, shippingAddress := exAddr }

/-- A database holding `exOrder` in PAID state next to product A. -/
def dbPaidOrder : DB :=
  { products := [productA], carts := [],
    orders := [{ exOrder with status := .PAID }] }

/-- A database holding `exOrder` in DELIVERED state. -/
def dbDeliveredOrder : DB :=
  { products := [productA], carts := [],
    orders := [{ exOrder with status := .DELIVERED }] }

/-- A database holding `exOrder` (PENDING) next to product A, used to watch
a product update leave the snapshot untouched. -/
def dbWithOrder : DB :=
  { products := [productA], carts := [], orders := [exOrder] }

/-- A product update that raises variant A's price from 100 to 150. -/
def raisePriceDto : UpdateProductDto :=
  { title := none, basePrice := none, options := none,
    variants := some [{ variantA with price := 150 }] }

/-- The products-only update of the C9 scenario: replace the option list
(`Size` → `Color`) while leaving the variants untouched. -/
def optionsOnlyDto : UpdateProductDto :=
  { title := none, basePrice := none,
    options := some [{ name := "Color", values := ["Red"] }], variants := none }

/-- A database holding product B alone (variant B carries a `Size`
attribute validated against the `Size` option). -/
def dbProductB : DB := { products := [productB], carts := [], orders := [] }

/-- A one-line cart of user 7 requesting quantity 1 of variant A, for the
create-then-cancel roundtrip. -/
def dbOneItem : DB :=
  { products := [productA],
    carts := [{ userId := 7,
                items := [{ productId := 1, variantSku := "SKU-A", quantity := 1 }] }],
    orders := [] }

/-! ### Basic resolution lemmas -/

theorem findProduct_id {ps : List Product} {pid : Nat} {p : Product}
    (h : findProduct ps pid = some p) : p.id = pid := by
  have := List.find?_some h
  simpa using this

theorem mem_of_findProduct {ps : List Product} {pid : Nat} {p : Product}
    (h : findProduct ps pid = some p) : p ∈ ps :=
  List.mem_of_find?_eq_some h

theorem find?_sku_eq {vs : List Variant} {sku : String} {v : Variant}
    (h : vs.find? (fun v' => v'.sku == sku) = some v) : v.sku = sku := by
  have := List.find?_some h
  simpa using this

theorem stockOf_eq_some {ps : List Product} {pid : Nat} {sku : String} {s : Int}
    (h : stockOf ps pid sku = some s) :
    ∃ p v, findProduct ps pid = some p ∧
      p.variants.find? (fun v' => v'.sku == sku) = some v ∧ v.stock = s := by
  cases hfp : findProduct ps pid with
  | none => simp [stockOf, hfp] at h
  | some p =>
    cases hfv : p.variants.find? (fun v' => v'.sku == sku) with
    | none => simp [stockOf, hfp, hfv] at h
    | some v =>
      have hs : v.stock = s := by simpa [stockOf, hfp, hfv] using h
      exact ⟨p, v, rfl, hfv, hs⟩

theorem stockOf_of_find {ps : List Product} {pid : Nat} {sku : String}
    {p : Product} {v : Variant} (hp : findProduct ps pid = some p)
    (hv : p.variants.find? (fun v' => v'.sku == sku) = some v) :
    stockOf ps pid sku = some v.stock := by
  simp [stockOf, hp, hv]

theorem priceOf_of_find {ps : List Product} {pid : Nat} {sku : String}
    {p : Product} {v : Variant} (hp : findProduct ps pid = some p)
    (hv : p.variants.find? (fun v' => v'.sku == sku) = some v) :
    priceOf ps pid sku = some v.price := by
  simp [priceOf, hp, hv]

/-! ### Conditional decrement characterization

When the first variant carrying the SKU has enough stock (which is exactly
what the service checked just before issuing the conditional write), the
conditional write targets precisely that variant, decrements it, and leaves
every other `(product, sku)` slot untouched. -/

theorem decVariants_char {vs : List Variant} {sku : String} {q : Nat} {v : Variant}
    (hv : vs.find? (fun v' => v'.sku == sku) = some v) (hq : (q : Int) ≤ v.stock) :
    ∃ vs', decVariants vs sku q = some vs' ∧
      vs'.find? (fun v' => v'.sku == sku) = some { v with stock := v.stock - q } ∧
      ∀ sku', sku' ≠ sku →
        vs'.find? (fun v' => v'.sku == sku') = vs.find? (fun v' => v'.sku == sku') := by
  induction vs with
  | nil => simp at hv
  | cons v0 rest ih =>
    by_cases h0 : v0.sku = sku
    · have hv0 : v = v0 := by
        rw [List.find?_cons_of_pos _ (by simp [h0])] at hv
        exact (Option.some_inj.mp hv).symm
      subst hv0
      refine ⟨{ v with stock := v.stock - q } :: rest, ?_, ?_, ?_⟩
      · simp [decVariants, h0, hq]
      · exact List.find?_cons_of_pos _ (by simp [h0])
      · intro sku' hne
        rw [List.find?_cons_of_neg _ (by simp [h0]; exact fun h => (hne h.symm).elim),
          List.find?_cons_of_neg _ (by simp [h0]; exact fun h => (hne h.symm).elim)]
    · rw [List.find?_cons_of_neg _ (by simp [h0])] at hv
      obtain ⟨vs', hdec, hself, hother⟩ := ih hv
      refine ⟨v0 :: vs', ?_, ?_, ?_⟩
      · simp only [decVariants]
        rw [if_neg (by intro h; exact h0 h.1), hdec]
        rfl
      · rw [List.find?_cons_of_neg _ (by simp [h0])]
        exact hself
      · intro sku' hne
        by_cases h0' : v0.sku = sku'
        · rw [List.find?_cons_of_pos _ (by simp [h0']),
            List.find?_cons_of_pos _ (by simp [h0'])]
        · rw [List.find?_cons_of_neg _ (by simp [h0']),
            List.find?_cons_of_neg _ (by simp [h0'])]
          exact hother sku' hne

theorem decVariant_char {ps : List Product} {pid : Nat} {sku : String} {q : Nat}
    {p : Product} {v : Variant}
    (hp : findProduct ps pid = some p)
    (hv : p.variants.find? (fun v' => v'.sku == sku) = some v)
    (hq : (q : Int) ≤ v.stock) :
    ∃ ps', decVariant ps pid sku q = some ps' ∧
      stockOf ps' pid sku = some (v.stock - q) ∧
      ∀ pid' sku', ¬(pid' = pid ∧ sku' = sku) →
        stockOf ps' pid' sku' = stockOf ps pid' sku' ∧
        priceOf ps' pid' sku' = priceOf ps pid' sku' := by
  induction ps with
  | nil => simp [findProduct] at hp
  | cons p0 rest ih =>
    by_cases h0 : p0.id = pid
    · have hp0 : p0 = p := by
        unfold findProduct at hp
        rw [List.find?_cons_of_pos _ (by simp [h0])] at hp
        exact Option.some_inj.mp hp
      obtain ⟨vs', hdec, hself, hother⟩ := decVariants_char hv hq
      refine ⟨{ p0 with variants := vs' } :: rest, ?_, ?_, ?_⟩
      · simp only [decVariant]
        rw [if_pos h0, hp0, hdec]
        rfl
      · unfold stockOf findProduct
        rw [List.find?_cons_of_pos _ (by simp [h0])]
        simp [hself]
      · intro pid' sku' hne
        by_cases h0' : p0.id = pid'
        · have hskune : sku' ≠ sku := by
            intro hs
            exact hne ⟨by rw [← h0', h0], hs⟩
          constructor
          · unfold stockOf findProduct
            rw [List.find?_cons_of_pos _ (by simp [h0']),
              List.find?_cons_of_pos _ (by simp [h0'])]
            simp [hp0, hother sku' hskune]
          · unfold priceOf findProduct
            rw [List.find?_cons_of_pos _ (by simp [h0']),
              List.find?_cons_of_pos _ (by simp [h0'])]
            simp [hp0, hother sku' hskune]
        · constructor
          · unfold stockOf findProduct
            rw [List.find?_cons_of_neg _ (by simp [h0']),
              List.find?_cons_of_neg _ (by simp [h0'])]
          · unfold priceOf findProduct
            rw [List.find?_cons_of_neg _ (by simp [h0']),
              List.find?_cons_of_neg _ (by simp [h0'])]
    · have hp' : findProduct rest pid = some p := by
        unfold findProduct at hp ⊢
        rwa [List.find?_cons_of_neg _ (by simp [h0])] at hp
      obtain ⟨ps', hdec, hself, hother⟩ := ih hp'
      refine ⟨p0 :: ps', ?_, ?_, ?_⟩
      · simp only [decVariant]
        rw [if_neg h0, hdec]
        rfl
      · unfold stockOf findProduct at hself ⊢
        rw [List.find?_cons_of_neg _ (by simp [h0])]
        exact hself
      · intro pid' sku' hne
        by_cases h0' : p0.id = pid'
        · constructor
          · unfold stockOf findProduct
            rw [List.find?_cons_of_pos _ (by simp [h0']),
              List.find?_cons_of_pos _ (by simp [h0'])]
          · unfold priceOf findProduct
            rw [List.find?_cons_of_pos _ (by simp [h0']),
              List.find?_cons_of_pos _ (by simp [h0'])]
        · have := hother pid' sku' hne
          constructor
          · unfold stockOf findProduct at this ⊢
            rw [List.find?_cons_of_neg _ (by simp [h0']),
              List.find?_cons_of_neg _ (by simp [h0'])]
            exact this.1
          · unfold priceOf findProduct at this ⊢
            rw [List.find?_cons_of_neg _ (by simp [h0']),
              List.find?_cons_of_neg _ (by simp [h0'])]
            exact this.2

/-! ### Unconditional increment characterization

The stock-restoration write increments the first variant carrying the SKU;
a missing product or SKU makes it a silent no-op. -/

theorem incVariants_find?_self {vs : List Variant} {sku : String} {q : Nat} {v : Variant}
    (h : vs.find? (fun v' => v'.sku == sku) = some v) :
    (incVariants vs sku q).find? (fun v' => v'.sku == sku) =
      some { v with stock := v.stock + q } := by
  induction vs with
  | nil => simp at h
  | cons v0 rest ih =>
    by_cases h0 : v0.sku = sku
    · have hv0 : v0 = v := by
        rw [List.find?_cons_of_pos _ (by simp [h0])] at h
        exact Option.some_inj.mp h
      subst hv0
      simp only [incVariants, if_pos h0]
      exact List.find?_cons_of_pos _ (by simp [h0])
    · rw [List.find?_cons_of_neg _ (by simp [h0])] at h
      simp only [incVariants, if_neg h0]
      rw [List.find?_cons_of_neg _ (by simp [h0])]
      exact ih h

theorem incVariants_find?_other {vs : List Variant} {sku sku' : String} {q : Nat}
    (h : sku' ≠ sku) :
    (incVariants vs sku q).find? (fun v' => v'.sku == sku') =
      vs.find? (fun v' => v'.sku == sku') := by
  induction vs with
  | nil => simp [incVariants]
  | cons v0 rest ih =>
    by_cases h0 : v0.sku = sku
    · simp only [incVariants, if_pos h0]
      rw [List.find?_cons_of_neg _ (by simp [h0]; exact fun hs => (h hs.symm).elim),
        List.find?_cons_of_neg _ (by simp [h0]; exact fun hs => (h hs.symm).elim)]
    · simp only [incVariants, if_neg h0]
      by_cases h0' : v0.sku = sku'
      · rw [List.find?_cons_of_pos _ (by simp [h0']),
          List.find?_cons_of_pos _ (by simp [h0'])]
      · rw [List.find?_cons_of_neg _ (by simp [h0']),
          List.find?_cons_of_neg _ (by simp [h0'])]
        exact ih

theorem incVariants_of_none {vs : List Variant} {sku : String} {q : Nat}
    (h : vs.find? (fun v' => v'.sku == sku) = none) : incVariants vs sku q = vs := by
  induction vs with
  | nil => simp [incVariants]
  | cons v0 rest ih =>
    by_cases h0 : v0.sku = sku
    · rw [List.find?_cons_of_pos _ (by simp [h0])] at h
      exact absurd h (by simp)
    · rw [List.find?_cons_of_neg _ (by simp [h0])] at h
      simp only [incVariants, if_neg h0]
      rw [ih h]

theorem incVariant_stockOf_self {ps : List Product} {pid : Nat} {sku : String}
    {q : Nat} {s : Int} (h : stockOf ps pid sku = some s) :
    stockOf (incVariant ps pid sku q) pid sku = some (s + q) := by
  induction ps with
  | nil => simp [stockOf, findProduct] at h
  | cons p0 rest ih =>
    by_cases h0 : p0.id = pid
    · have hfp : findProduct (p0 :: rest) pid = some p0 := by
        unfold findProduct
        exact List.find?_cons_of_pos _ (by simp [h0])
      cases hfv : p0.variants.find? (fun v' => v'.sku == sku) with
      | none => simp [stockOf, hfp, hfv] at h
      | some v =>
        have hs : v.stock = s := by simpa [stockOf, hfp, hfv] using h
        simp only [incVariant, if_pos h0]
        unfold stockOf findProduct
        rw [List.find?_cons_of_pos _ (by simp [h0])]
        simp [incVariants_find?_self hfv, hs]
    · have hrest : stockOf rest pid sku = some s := by
        unfold stockOf findProduct at h ⊢
        rwa [List.find?_cons_of_neg _ (by simp [h0])] at h
      simp only [incVariant, if_neg h0]
      unfold stockOf findProduct at ih ⊢
      rw [List.find?_cons_of_neg _ (by simp [h0])]
      exact ih hrest

theorem incVariant_stockOf_other {ps : List Product} {pid pid' : Nat}
    {sku sku' : String} {q : Nat} (h : ¬(pid' = pid ∧ sku' = sku)) :
    stockOf (incVariant ps pid sku q) pid' sku' = stockOf ps pid' sku' := by
  induction ps with
  | nil => simp [incVariant]
  | cons p0 rest ih =>
    by_cases h0 : p0.id = pid
    · simp only [incVariant, if_pos h0]
      by_cases h0' : p0.id = pid'
      · have hskune : sku' ≠ sku := fun hs => h ⟨by rw [← h0', h0], hs⟩
        unfold stockOf findProduct
        rw [List.find?_cons_of_pos _ (by simp [h0']),
          List.find?_cons_of_pos _ (by simp [h0'])]
        simp [incVariants_find?_other hskune]
      · unfold stockOf findProduct
        rw [List.find?_cons_of_neg _ (by simp [h0']),
          List.find?_cons_of_neg _ (by simp [h0'])]
    · simp only [incVariant, if_neg h0]
      by_cases h0' : p0.id = pid'
      · unfold stockOf findProduct
        rw [List.find?_cons_of_pos _ (by simp [h0']),
          List.find?_cons_of_pos _ (by simp [h0'])]
      · unfold stockOf findProduct at ih ⊢
        rw [List.find?_cons_of_neg _ (by simp [h0']),
          List.find?_cons_of_neg _ (by simp [h0'])]
        exact ih

theorem incVariant_of_none {ps : List Product} {pid : Nat} {sku : String} {q : Nat}
    (h : stockOf ps pid sku = none) : incVariant ps pid sku q = ps := by
  induction ps with
  | nil => simp [incVariant]
  | cons p0 rest ih =>
    by_cases h0 : p0.id = pid
    · have hfp : findProduct (p0 :: rest) pid = some p0 := by
        unfold findProduct
        exact List.find?_cons_of_pos _ (by simp [h0])
      have hfv : p0.variants.find? (fun v' => v'.sku == sku) = none := by
        cases hfv : p0.variants.find? (fun v' => v'.sku == sku) with
        | none => rfl
        | some v => simp [stockOf, hfp, hfv] at h
      simp only [incVariant, if_pos h0, incVariants_of_none hfv]
    · have hrest : stockOf rest pid sku = none := by
        unfold stockOf findProduct at h ⊢
        rwa [List.find?_cons_of_neg _ (by simp [h0])] at h
      simp only [incVariant, if_neg h0]
      rw [ih hrest]

/-- Pointwise effect of one unconditional increment. -/
theorem incVariant_stockOf (ps : List Product) (pid : Nat) (sku : String) (q : Nat)
    (pid' : Nat) (sku' : String) :
    stockOf (incVariant ps pid sku q) pid' sku' =
      if pid' = pid ∧ sku' = sku then (stockOf ps pid sku).map (· + (q : Int))
      else stockOf ps pid' sku' := by
  by_cases hpair : pid' = pid ∧ sku' = sku
  · rw [if_pos hpair, hpair.1, hpair.2]
    cases hs : stockOf ps pid sku with
    | none => simp [incVariant_of_none hs, hs]
    | some s => simp [incVariant_stockOf_self hs]
  · rw [if_neg hpair]
    exact incVariant_stockOf_other hpair

/-- Pointwise effect of the whole stock-restoration loop: each slot gains
the total quantity the order's items carry for it; slots that no longer
resolve stay unresolved (the silent no-op). -/
theorem restoreStock_stockOf (ps : List Product) (ois : List OrderItem)
    (pid : Nat) (sku : String) :
    stockOf (restoreStock ps ois) pid sku =
      (stockOf ps pid sku).map (· + (itemsQty ois pid sku : Int)) := by
  induction ois generalizing ps with
  | nil =>
    simp only [restoreStock, itemsQty, List.filter_nil, List.map_nil, List.sum_nil]
    cases stockOf ps pid sku <;> simp
  | cons oi rest ih =>
    simp only [restoreStock]
    rw [ih]
    rw [incVariant_stockOf]
    by_cases hpair : pid = oi.productId ∧ sku = oi.variantSku
    · obtain ⟨hp1, hp2⟩ := hpair
      subst hp1
      subst hp2
      rw [if_pos ⟨rfl, rfl⟩]
      have hq : itemsQty (oi :: rest) oi.productId oi.variantSku
          = oi.quantity + itemsQty rest oi.productId oi.variantSku := by
        simp [itemsQty, List.filter_cons]
      rw [hq]
      cases stockOf ps oi.productId oi.variantSku with
      | none => simp
      | some s =>
        simp only [Option.map_some']
        congr 1
        push_cast
        ring
    · rw [if_neg hpair]
      have hq : itemsQty (oi :: rest) pid sku = itemsQty rest pid sku := by
        have : (oi.productId == pid && oi.variantSku == sku) = false := by
          simp only [Bool.and_eq_false_iff, beq_eq_false_iff_ne]
          by_cases h1 : oi.productId = pid
          · right
            intro h2
            exact hpair ⟨h1.symm, h2.symm⟩
          · left
            exact fun h2 => h1 h2
        simp [itemsQty, List.filter_cons, this]
      rw [hq]

/-! ### The order-creation loop, characterized -/

theorem cartQty_cons_self {i : CartItem} {rest : List CartItem} {pid : Nat}
    {sku : String} (h : i.productId = pid ∧ i.variantSku = sku) :
    cartQty (i :: rest) pid sku = i.quantity + cartQty rest pid sku := by
  simp [cartQty, List.filter_cons, h.1, h.2]

theorem cartQty_cons_other {i : CartItem} {rest : List CartItem} {pid : Nat}
    {sku : String} (h : ¬(pid = i.productId ∧ sku = i.variantSku)) :
    cartQty (i :: rest) pid sku = cartQty rest pid sku := by
  have hb : (i.productId == pid && i.variantSku == sku) = false := by
    simp only [Bool.and_eq_false_iff, beq_eq_false_iff_ne]
    by_cases h1 : i.productId = pid
    · right
      intro h2
      exact h ⟨h1.symm, h2.symm⟩
    · left
      exact fun h2 => h1 h2
  simp [cartQty, List.filter_cons, hb]

theorem cartTotal_nil (ps : List Product) : cartTotal ps [] = 0 := by
  simp [cartTotal]

theorem cartTotal_cons (ps : List Product) (i : CartItem) (rest : List CartItem) :
    cartTotal ps (i :: rest) =
      (priceOf ps i.productId i.variantSku).getD 0 * i.quantity + cartTotal ps rest := by
  simp [cartTotal]

theorem cartTotal_congr {ps ps' : List Product} {items : List CartItem}
    (h : ∀ i ∈ items, priceOf ps' i.productId i.variantSku
      = priceOf ps i.productId i.variantSku) :
    cartTotal ps' items = cartTotal ps items := by
  induction items with
  | nil => simp [cartTotal]
  | cons i rest ih =>
    rw [cartTotal_cons, cartTotal_cons, h i (List.mem_cons_self i rest),
      ih (fun j hj => h j (List.mem_cons_of_mem i hj))]

/-- Inversion of a successful run of the loop: the final products state has
every `(product, sku)` stock slot decreased by exactly the total quantity
the cart requested for it (everything else untouched), and the produced
order items carry exactly the cart's product ids, SKUs and quantities. -/
theorem processItems_ok_char {ps : List Product} {items : List CartItem}
    {ps' : List Product} {ois : List OrderItem} {t : ℚ}
    (h : processItems ps items = .ok (ps', ois, t)) :
    (∀ pid sku, stockOf ps' pid sku
      = (stockOf ps pid sku).map (· - (cartQty items pid sku : Int))) ∧
    ois.map (fun o => (o.productId, o.variantSku, o.quantity))
      = items.map (fun i => (i.productId, i.variantSku, i.quantity)) := by
  induction items generalizing ps ois t with
  | nil =>
    simp only [processItems, Except.ok.injEq, Prod.mk.injEq] at h
    obtain ⟨h1, h2, h3⟩ := h
    subst h1
    subst h2
    constructor
    · intro pid sku
      cases stockOf ps pid sku <;> simp [cartQty]
    · simp
  | cons i rest ih =>
    cases hfp : findProduct ps i.productId with
    | none => simp [processItems, hfp] at h
    | some product =>
      cases hfv : product.variants.find? (fun v => v.sku == i.variantSku) with
      | none => simp [processItems, hfp, hfv] at h
      | some variant =>
        by_cases hlt : variant.stock < (i.quantity : Int)
        · simp [processItems, hfp, hfv, hlt] at h
        · have hle : (i.quantity : Int) ≤ variant.stock := not_lt.mp hlt
          have hpid : product.id = i.productId := findProduct_id hfp
          obtain ⟨ps₁, hdec, hself, hother⟩ := decVariant_char hfp hfv hle
          have hdec' : decVariant ps product.id i.variantSku i.quantity = some ps₁ := by
            rw [hpid]
            exact hdec
          cases hrec : processItems ps₁ rest with
          | error e => simp [processItems, hfp, hfv, hlt, hdec', hrec] at h
          | ok res =>
            obtain ⟨psF, oisF, tF⟩ := res
            have h' : psF = ps' ∧ mkOrderItem product variant i.quantity :: oisF = ois
                ∧ variant.price * i.quantity + tF = t := by
              simpa [processItems, hfp, hfv, hlt, hdec', hrec] using h
            obtain ⟨h1, h2, h3⟩ := h'
            subst h1
            subst h2
            obtain ⟨ihstock, ihmap⟩ := ih hrec
            constructor
            · intro pid sku
              rw [ihstock pid sku]
              by_cases hpair : pid = i.productId ∧ sku = i.variantSku
              · obtain ⟨hp1, hp2⟩ := hpair
                subst hp1
                subst hp2
                rw [hself]
                rw [stockOf_of_find hfp hfv]
                rw [cartQty_cons_self ⟨rfl, rfl⟩]
                simp only [Option.map_some']
                congr 1
                push_cast
                ring
              · rw [(hother pid sku hpair).1, cartQty_cons_other hpair]
            · simp only [List.map_cons, ihmap, mkOrderItem]
              rw [hpid, find?_sku_eq hfv]

/-- Forward run of the loop: if the cart's `(productId, sku)` pairs are
pairwise distinct and every line item resolves with live stock covering its
quantity, the loop succeeds and its accumulated total is the spec's
`Σ(variant.price × quantity)` over the pre-call state. -/
theorem processItems_ok_of {ps : List Product} {items : List CartItem}
    (hnodup : (items.map (fun i => (i.productId, i.variantSku))).Nodup)
    (hres : ∀ i ∈ items, ∃ s, stockOf ps i.productId i.variantSku = some s
      ∧ (i.quantity : Int) ≤ s) :
    ∃ ps' ois, processItems ps items = .ok (ps', ois, cartTotal ps items) := by
  induction items generalizing ps with
  | nil => exact ⟨ps, [], by simp [processItems, cartTotal]⟩
  | cons i rest ih =>
    obtain ⟨s, hs, hq⟩ := hres i (List.mem_cons_self i rest)
    obtain ⟨product, variant, hfp, hfv, hvs⟩ := stockOf_eq_some hs
    have hq' : (i.quantity : Int) ≤ variant.stock := by rw [hvs]; exact hq
    have hpid : product.id = i.productId := findProduct_id hfp
    obtain ⟨ps₁, hdec, hself, hother⟩ := decVariant_char hfp hfv hq'
    have hdec' : decVariant ps product.id i.variantSku i.quantity = some ps₁ := by
      rw [hpid]
      exact hdec
    have hhead : (i.productId, i.variantSku) ∉
        rest.map (fun j => (j.productId, j.variantSku)) :=
      (List.nodup_cons.mp hnodup).1
    have hpairne : ∀ j ∈ rest,
        ¬(j.productId = i.productId ∧ j.variantSku = i.variantSku) := by
      intro j hj hcontra
      exact hhead (by
        rw [← hcontra.1, ← hcontra.2]
        exact List.mem_map_of_mem _ hj)
    have hres₁ : ∀ j ∈ rest, ∃ s', stockOf ps₁ j.productId j.variantSku = some s'
        ∧ (j.quantity : Int) ≤ s' := by
      intro j hj
      obtain ⟨s', hs', hq''⟩ := hres j (List.mem_cons_of_mem i hj)
      exact ⟨s', by rw [(hother j.productId j.variantSku (hpairne j hj)).1]; exact hs',
        hq''⟩
    obtain ⟨psF, oisF, hrec⟩ := ih (List.nodup_cons.mp hnodup).2 hres₁
    have htot : cartTotal ps₁ rest = cartTotal ps rest :=
      cartTotal_congr (fun j hj => (hother j.productId j.variantSku (hpairne j hj)).2)
    have hnlt : ¬(variant.stock < (i.quantity : Int)) := not_lt.mpr hq'
    refine ⟨psF, mkOrderItem product variant i.quantity :: oisF, ?_⟩
    rw [cartTotal_cons, priceOf_of_find hfp hfv]
    simp only [processItems, hfp, hfv, hnlt, if_false, hdec', hrec, htot]
    rw [Option.getD_some]

/-- A successful prefix of the loop composes with the remainder: the
remainder runs on the prefix's final products state, the first failure of
the remainder being the failure of the whole. -/
theorem processItems_append_error {ps : List Product} {pre l : List CartItem}
    {ps₁ : List Product} {ois : List OrderItem} {t : ℚ} {e : SvcError}
    (h : processItems ps pre = .ok (ps₁, ois, t))
    (he : processItems ps₁ l = .error e) :
    processItems ps (pre ++ l) = .error e := by
  induction pre generalizing ps ois t with
  | nil =>
    simp only [processItems, Except.ok.injEq, Prod.mk.injEq] at h
    obtain ⟨h1, h2, h3⟩ := h
    subst h1
    simpa using he
  | cons i rest ih =>
    cases hfp : findProduct ps i.productId with
    | none => simp [processItems, hfp] at h
    | some product =>
      cases hfv : product.variants.find? (fun v => v.sku == i.variantSku) with
      | none => simp [processItems, hfp, hfv] at h
      | some variant =>
        by_cases hlt : variant.stock < (i.quantity : Int)
        · simp [processItems, hfp, hfv, hlt] at h
        · cases hdec : decVariant ps product.id i.variantSku i.quantity with
          | none => simp [processItems, hfp, hfv, hlt, hdec] at h
          | some psMid =>
            cases hrec : processItems psMid rest with
            | error e' => simp [processItems, hfp, hfv, hlt, hdec, hrec] at h
            | ok res =>
              obtain ⟨psR, oisR, tR⟩ := res
              have h' : psR = ps₁ ∧ mkOrderItem product variant i.quantity :: oisR = ois
                  ∧ variant.price * i.quantity + tR = t := by
                simpa [processItems, hfp, hfv, hlt, hdec, hrec] using h
              obtain ⟨h1, _, _⟩ := h'
              subst h1
              have : processItems psMid (rest ++ l) = .error e := ih hrec
              simp [processItems, hfp, hfv, hlt, hdec, this]

/-- The loop fails with `InsufficientStock` carrying the live available
stock and the requested quantity as soon as it reaches a line item whose
quantity exceeds the live stock. -/
theorem processItems_cons_insufficient {ps : List Product} {i : CartItem}
    {rest : List CartItem} {s : Int}
    (h1 : stockOf ps i.productId i.variantSku = some s)
    (hlt : s < (i.quantity : Int)) :
    processItems ps (i :: rest) = .error (.insufficientStock s i.quantity) := by
  obtain ⟨product, variant, hfp, hfv, hvs⟩ := stockOf_eq_some h1
  subst hvs
  simp [processItems, hfp, hfv, hlt]

/-! ### createOrder: abort semantics and success shape -/

/-- Any failure inside the transaction body makes `createOrder` abort: the
returned state is exactly the pre-call state and the caller sees the
originating error. -/
theorem createOrder_abort {db : DB} {uid : Nat} {addr : Address} {oid : Nat}
    {onum : String} {e : SvcError}
    (h : createOrderTx db uid addr oid onum = .error e) :
    createOrder db uid addr oid onum = (db, .error e) := by
  simp [createOrder, h]

theorem cartQty_eq_zero {items : List CartItem} {pid : Nat} {sku : String}
    (h : (pid, sku) ∉ items.map (fun i => (i.productId, i.variantSku))) :
    cartQty items pid sku = 0 := by
  induction items with
  | nil => simp [cartQty]
  | cons i rest ih =>
    have h1 : ¬(pid = i.productId ∧ sku = i.variantSku) := by
      intro hc
      exact h (by simp [hc.1, hc.2])
    rw [cartQty_cons_other h1]
    exact ih fun hm => h (List.mem_cons_of_mem _ hm)

theorem find?_setCartItems {cs : List Cart} {uid : Nat} {c : Cart}
    {its : List CartItem} (h : cs.find? (fun c' => c'.userId == uid) = some c) :
    (setCartItems cs uid its).find? (fun c' => c'.userId == uid)
      = some { c with items := its } := by
  induction cs with
  | nil => simp at h
  | cons c0 rest ih =>
    by_cases h0 : c0.userId = uid
    · rw [List.find?_cons_of_pos _ (by simp [h0])] at h
      have hc0 : c0 = c := Option.some_inj.mp h
      subst hc0
      simp only [setCartItems, List.map_cons, if_pos h0]
      exact List.find?_cons_of_pos _ (by simp [h0])
    · rw [List.find?_cons_of_neg _ (by simp [h0])] at h
      simp only [setCartItems, List.map_cons, if_neg h0]
      rw [List.find?_cons_of_neg _ (by simp [h0])]
      exact ih h

/-! ### Claim theorems: order creation -/

/-- C1: whenever `createOrder` fails — for any reason the transaction body
can fail with (empty or absent cart, missing product, missing variant,
insufficient stock, conditional-write conflict) — the post-call state is
exactly the pre-call state: every variant's stock, the user's cart and the
orders collection are unchanged, and the caller sees the originating
error. -/
theorem claim_C1_createOrder_failure_rolls_back (db : DB) (uid : Nat)
    (addr : Address) (oid : Nat) (onum : String) (e : SvcError)
    (h : createOrderTx db uid addr oid onum = .error e) :
    createOrder db uid addr oid onum = (db, .error e) :=
  createOrder_abort h

/-- C1 witness: checkout for a user without a cart fails with `EmptyCart`
and leaves the database untouched. -/
theorem claim_C1_witness :
    createOrderTx dbNoCart 7 exAddr 100 "ORD-1" = .error .emptyCart ∧
    createOrder dbNoCart 7 exAddr 100 "ORD-1" = (dbNoCart, .error .emptyCart) :=
  ⟨rfl, claim_C1_createOrder_failure_rolls_back dbNoCart 7 exAddr 100 "ORD-1"
    .emptyCart rfl⟩

/-- C2: for a non-empty cart whose line items address pairwise distinct
`(product, sku)` pairs, each within the live stock of its resolved variant,
`createOrder` succeeds with a PENDING order whose total is
`Σ(variant.price × quantity)`, decrements each affected variant's stock by
exactly the requested quantity (leaving every other stock slot unchanged),
appends the order, and empties the user's cart. -/
theorem claim_C2_createOrder_success (db : DB) (uid : Nat) (addr : Address)
    (oid : Nat) (onum : String) (cart : Cart)
    (hc : findCart db uid = some cart)
    (hne : cart.items ≠ [])
    (hnodup : (cart.items.map (fun i => (i.productId, i.variantSku))).Nodup)
    (hres : ∀ i ∈ cart.items, ∃ s,
      stockOf db.products i.productId i.variantSku = some s
      ∧ (i.quantity : Int) ≤ s) :
    ∃ db' order, createOrder db uid addr oid onum = (db', .ok order)
      ∧ order.status = .PENDING
      ∧ order.totalAmount = cartTotal db.products cart.items
      ∧ (∀ pid sku, stockOf db'.products pid sku
          = (stockOf db.products pid sku).map
            (· - (cartQty cart.items pid sku : Int)))
      ∧ (findCart db' uid).map Cart.items = some []
      ∧ db'.orders = db.orders ++ [order] := by
  obtain ⟨ps', ois, hproc⟩ := processItems_ok_of hnodup hres
  refine ⟨⟨ps', setCartItems db.carts uid [],
      db.orders ++ [⟨oid, uid, onum, ois, cartTotal db.products cart.items,
        .PENDING, addr⟩]⟩,
    ⟨oid, uid, onum, ois, cartTotal db.products cart.items, .PENDING, addr⟩,
    ?_, rfl, rfl, ?_, ?_, rfl⟩
  · have htx : createOrderTx db uid addr oid onum
        = .ok (⟨ps', setCartItems db.carts uid [],
            db.orders ++ [⟨oid, uid, onum, ois, cartTotal db.products cart.items,
              .PENDING, addr⟩]⟩,
          ⟨oid, uid, onum, ois, cartTotal db.products cart.items, .PENDING, addr⟩) := by
      simp [createOrderTx, hc, hne, hproc]
    simp [createOrder, htx]
  · exact (processItems_ok_char hproc).1
  · unfold findCart
    rw [find?_setCartItems hc]
    rfl

/-- C2 witness: the spec's scenario — cart `[{variant A, qty 2, stock 5,
price 100}]` checks out with total 200, stock 3 and an empty cart. -/
theorem claim_C2_witness :
    (∃ db' order, createOrder dbScenarioA 7 exAddr 100 "ORD-1" = (db', .ok order)
      ∧ order.status = .PENDING
      ∧ order.totalAmount = cartTotal dbScenarioA.products
          [{ productId := 1, variantSku := "SKU-A", quantity := 2 }]
      ∧ (∀ pid sku, stockOf db'.products pid sku
          = (stockOf dbScenarioA.products pid sku).map
            (· - (cartQty [{ productId := 1, variantSku := "SKU-A", quantity := 2 }]
              pid sku : Int)))
      ∧ (findCart db' 7).map Cart.items = some []
      ∧ db'.orders = dbScenarioA.orders ++ [order])
    ∧ cartTotal dbScenarioA.products
        [{ productId := 1, variantSku := "SKU-A", quantity := 2 }] = 200
    ∧ stockOf (createOrder dbScenarioA 7 exAddr 100 "ORD-1").1.products 1 "SKU-A"
        = some 3 := by
  refine ⟨claim_C2_createOrder_success dbScenarioA 7 exAddr 100 "ORD-1"
    { userId := 7, items := [{ productId := 1, variantSku := "SKU-A", quantity := 2 }] }
    rfl (by decide) (by decide) ?_, by norm_num [cartTotal, priceOf, findProduct, dbScenarioA, productA, variantA], by decide⟩
  intro i hi
  refine ⟨5, ?_, ?_⟩
  · have : i = { productId := 1, variantSku := "SKU-A", quantity := 2 } := by
      simpa using hi
    rw [this]
    rfl
  · have : i = { productId := 1, variantSku := "SKU-A", quantity := 2 } := by
      simpa using hi
    rw [this]
    decide

/-- C3: if the cart contains a line item requesting more than its variant's
live stock (the distinct line items before it all being satisfiable),
`createOrder` fails with `InsufficientStock` carrying the available and
requested counts, and the database — that variant's stock and the cart
included — is exactly as before the call. -/
theorem claim_C3_insufficient_stock (db : DB) (uid : Nat) (addr : Address)
    (oid : Nat) (onum : String) (cart : Cart) (pre : List CartItem)
    (bad : CartItem) (rest : List CartItem) (s : Int)
    (hc : findCart db uid = some cart)
    (hsplit : cart.items = pre ++ bad :: rest)
    (hnodup : (pre.map (fun i => (i.productId, i.variantSku))).Nodup)
    (hnotin : (bad.productId, bad.variantSku)
      ∉ pre.map (fun i => (i.productId, i.variantSku)))
    (hpre : ∀ i ∈ pre, ∃ s', stockOf db.products i.productId i.variantSku = some s'
      ∧ (i.quantity : Int) ≤ s')
    (hbad : stockOf db.products bad.productId bad.variantSku = some s)
    (hlt : s < (bad.quantity : Int)) :
    createOrder db uid addr oid onum
      = (db, .error (.insufficientStock s bad.quantity)) := by
  obtain ⟨ps₁, ois, hproc⟩ := processItems_ok_of hnodup hpre
  have hstock₁ : stockOf ps₁ bad.productId bad.variantSku = some s := by
    rw [(processItems_ok_char hproc).1, cartQty_eq_zero hnotin, hbad]
    simp
  have herr : processItems ps₁ (bad :: rest)
      = .error (.insufficientStock s bad.quantity) :=
    processItems_cons_insufficient hstock₁ hlt
  have hwhole : processItems db.products cart.items
      = .error (.insufficientStock s bad.quantity) := by
    rw [hsplit]
    exact processItems_append_error hproc herr
  apply createOrder_abort
  have hne : cart.items ≠ [] := by
    rw [hsplit]
    simp
  simp [createOrderTx, hc, hne, hwhole]

/-- C3 witness: the spec's scenario — requesting quantity 10 of variant B
whose stock is 3 fails with `InsufficientStock{available: 3, requested: 10}`
and leaves the database unchanged. -/
theorem claim_C3_witness :
    createOrder dbScenarioB 7 exAddr 100 "ORD-1"
      = (dbScenarioB, .error (.insufficientStock 3 10)) :=
  claim_C3_insufficient_stock dbScenarioB 7 exAddr 100 "ORD-1"
    { userId := 7, items := [{ productId := 2, variantSku := "SKU-B", quantity := 10 }] }
    [] { productId := 2, variantSku := "SKU-B", quantity := 10 } [] 3
    rfl rfl (by decide) (by decide) (by intro i hi; simp at hi) rfl (by decide)

/-! ### Cancellation -/

theorem find?_append_of_none {α : Type} {l₁ l₂ : List α} {p : α → Bool}
    (h : l₁.find? p = none) : (l₁ ++ l₂).find? p = l₂.find? p := by
  induction l₁ with
  | nil => rfl
  | cons a rest ih =>
    by_cases ha : p a = true
    · rw [List.find?_cons_of_pos _ ha] at h
      exact absurd h (by simp)
    · rw [List.find?_cons_of_neg _ ha] at h
      rw [List.cons_append, List.find?_cons_of_neg _ ha]
      exact ih h

theorem setOrderStatus_append_not_found {os l : List Order} {oid : Nat}
    {st : OrderStatus} (h : ∀ o ∈ os, o.id ≠ oid) :
    setOrderStatus (os ++ l) oid st = os ++ setOrderStatus l oid st := by
  induction os with
  | nil => rfl
  | cons o rest ih =>
    rw [List.cons_append]
    simp only [setOrderStatus]
    rw [if_neg (h o (List.mem_cons_self o rest))]
    rw [ih fun o' ho' => h o' (List.mem_cons_of_mem o ho')]
    rfl

/-- Order items produced from cart lines request the same per-pair total
quantities as the cart lines themselves. -/
theorem itemsQty_eq_cartQty {ois : List OrderItem} {items : List CartItem}
    (h : ois.map (fun o => (o.productId, o.variantSku, o.quantity))
      = items.map (fun i => (i.productId, i.variantSku, i.quantity))) :
    ∀ pid sku, itemsQty ois pid sku = cartQty items pid sku := by
  induction ois generalizing items with
  | nil =>
    cases items with
    | nil => intro pid sku; rfl
    | cons i rest => simp at h
  | cons o rest ih =>
    cases items with
    | nil => simp at h
    | cons i irest =>
      simp only [List.map_cons, List.cons.injEq] at h
      obtain ⟨hhead, htail⟩ := h
      obtain ⟨h1, h2, h3⟩ : o.productId = i.productId ∧ o.variantSku = i.variantSku
          ∧ o.quantity = i.quantity := by
        simpa [Prod.ext_iff] using hhead
      intro pid sku
      have hrest := ih htail pid sku
      by_cases hpair : pid = i.productId ∧ sku = i.variantSku
      · have hq1 : itemsQty (o :: rest) pid sku = o.quantity + itemsQty rest pid sku := by
          simp [itemsQty, List.filter_cons, h1, h2, hpair.1, hpair.2]
        rw [hq1, cartQty_cons_self ⟨hpair.1.symm, hpair.2.symm⟩, hrest, h3]
      · have hb : (o.productId == pid && o.variantSku == sku) = false := by
          simp only [Bool.and_eq_false_iff, beq_eq_false_iff_ne]
          by_cases hp1 : o.productId = pid
          · right
            intro hp2
            exact hpair ⟨by rw [← hp1, h1], by rw [← hp2, h2]⟩
          · left
            exact hp1
        have hq1 : itemsQty (o :: rest) pid sku = itemsQty rest pid sku := by
          simp [itemsQty, List.filter_cons, hb]
        rw [hq1, cartQty_cons_other (by
          intro hc
          exact hpair ⟨hc.1, hc.2⟩), hrest]

/-- Inversion of a successful `createOrder`: it found a non-empty cart, the
loop succeeded, the appended order is PENDING with the loop's items and
total, and the post state is the committed session state. -/
theorem createOrder_ok_inversion {db : DB} {uid : Nat} {addr : Address}
    {oid : Nat} {onum : String} {db1 : DB} {order : Order}
    (h : createOrder db uid addr oid onum = (db1, .ok order)) :
    ∃ cart ps' ois t, findCart db uid = some cart ∧ cart.items ≠ [] ∧
      processItems db.products cart.items = .ok (ps', ois, t) ∧
      order = ⟨oid, uid, onum, ois, t, .PENDING, addr⟩ ∧
      db1 = ⟨ps', setCartItems db.carts uid [], db.orders ++ [order]⟩ := by
  cases htx : createOrderTx db uid addr oid onum with
  | error e =>
    rw [createOrder, htx] at h
    simp at h
  | ok res =>
    obtain ⟨db', o⟩ := res
    rw [createOrder, htx] at h
    obtain ⟨h1, h2⟩ : db' = db1 ∧ o = order := by simpa using h
    revert htx
    cases hc : findCart db uid with
    | none => intro htx; simp [createOrderTx, hc] at htx
    | some cart =>
      by_cases hne : cart.items = []
      · intro htx
        simp [createOrderTx, hc, hne] at htx
      · cases hproc : processItems db.products cart.items with
        | error e => intro htx; simp [createOrderTx, hc, hne, hproc] at htx
        | ok res2 =>
          obtain ⟨ps', ois, t⟩ := res2
          intro htx
          obtain ⟨hdb, hord⟩ :
              (⟨ps', setCartItems db.carts uid [],
                db.orders ++ [⟨oid, uid, onum, ois, t, .PENDING, addr⟩]⟩ : DB) = db'
              ∧ (⟨oid, uid, onum, ois, t, .PENDING, addr⟩ : Order) = o := by
            simpa [createOrderTx, hc, hne, hproc] using htx
          have hordo : (⟨oid, uid, onum, ois, t, .PENDING, addr⟩ : Order) = order :=
            hord.trans h2
          refine ⟨cart, ps', ois, t, rfl, hne, hproc, hordo.symm, ?_⟩
          rw [← h1, ← hdb, hordo]

/-- C7: cancelling an order whose status is not PENDING fails with
`InvalidStateTransition` carrying the current status — whose rendered
message names that status — and leaves the database (the order's status and
every variant's stock) unchanged. -/
theorem claim_C7_cancel_non_pending (db : DB) (orderId uid : Nat) (order : Order)
    (hfind : db.orders.find? (fun o => o.id == orderId && o.userId == uid)
      = some order)
    (hst : order.status ≠ .PENDING) :
    cancelOrder db orderId uid
      = (db, .error (.invalidStateTransition order.status))
    ∧ ∃ a b, invalidStateMessage order.status
        = a ++ statusName order.status ++ b := by
  constructor
  · simp [cancelOrder, hfind, hst]
  · exact ⟨"Cannot cancel order with status ",
      ". Only PENDING orders can be cancelled.", rfl⟩

/-- C7 witness: cancelling the PAID order of `dbPaidOrder` fails with
`InvalidStateTransition PAID` and changes nothing. -/
theorem claim_C7_witness :
    cancelOrder dbPaidOrder 100 7
      = (dbPaidOrder, .error (.invalidStateTransition .PAID))
    ∧ ∃ a b, invalidStateMessage .PAID = a ++ statusName .PAID ++ b :=
  claim_C7_cancel_non_pending dbPaidOrder 100 7 { exOrder with status := .PAID }
    rfl (by decide)

/-- C6: cancelling an order just created from a cart (its id fresh) succeeds,
marks it CANCELLED, and — because every item's increment exactly undoes the
creation-time decrement — returns every variant's stock to its value before
the order was created; moreover an increment aimed at a product or SKU that
no longer resolves is a silent no-op and any PENDING owned order cancels
successfully regardless. -/
theorem claim_C6_cancel_restores_stock (db : DB) (uid : Nat) (addr : Address)
    (oid : Nat) (onum : String) (db1 : DB) (order : Order)
    (hcreate : createOrder db uid addr oid onum = (db1, .ok order))
    (hfresh : ∀ o ∈ db.orders, o.id ≠ oid) :
    (∃ db2, cancelOrder db1 oid uid = (db2, .ok { order with status := .CANCELLED })
      ∧ (∀ pid sku, stockOf db2.products pid sku = stockOf db.products pid sku)
      ∧ (db2.orders.find? (fun o => o.id == oid)).map Order.status
          = some OrderStatus.CANCELLED)
    ∧ (∀ (ps : List Product) (pid : Nat) (sku : String) (q : Nat),
        stockOf ps pid sku = none → incVariant ps pid sku q = ps)
    ∧ (∀ (db' : DB) (oid' uid' : Nat) (order' : Order),
        db'.orders.find? (fun o => o.id == oid' && o.userId == uid') = some order' →
        order'.status = .PENDING →
        (cancelOrder db' oid' uid').2 = .ok { order' with status := .CANCELLED }) := by
  refine ⟨?_, fun ps pid sku q h => incVariant_of_none h, ?_⟩
  · obtain ⟨cart, ps', ois, t, hc, hne, hproc, hord, hdb1⟩ :=
      createOrder_ok_inversion hcreate
    have hid : order.id = oid := by rw [hord]
    have huid : order.userId = uid := by rw [hord]
    have hstatus : order.status = .PENDING := by rw [hord]
    have hitems : order.items = ois := by rw [hord]
    have hnone : db.orders.find? (fun o => o.id == oid && o.userId == uid) = none := by
      rw [List.find?_eq_none]
      intro o ho
      simp [hfresh o ho]
    have hfind : db1.orders.find? (fun o => o.id == oid && o.userId == uid)
        = some order := by
      rw [hdb1]
      show (db.orders ++ [order]).find? _ = some order
      rw [find?_append_of_none hnone]
      exact List.find?_cons_of_pos _ (by simp [hid, huid])
    refine ⟨⟨restoreStock db1.products order.items, db1.carts,
        setOrderStatus db1.orders oid .CANCELLED⟩,
      by simp [cancelOrder, hfind, hstatus], ?_, ?_⟩
    · intro pid sku
      rw [restoreStock_stockOf, hitems,
        itemsQty_eq_cartQty (processItems_ok_char hproc).2 pid sku]
      have hstock1 : stockOf db1.products pid sku
          = (stockOf db.products pid sku).map
            (· - (cartQty cart.items pid sku : Int)) := by
        rw [hdb1]
        exact (processItems_ok_char hproc).1 pid sku
      rw [hstock1]
      cases stockOf db.products pid sku with
      | none => rfl
      | some s => simp
    · have hsets : setOrderStatus db1.orders oid .CANCELLED
          = db.orders ++ [{ order with status := .CANCELLED }] := by
        rw [hdb1]
        show setOrderStatus (db.orders ++ [order]) oid .CANCELLED = _
        rw [setOrderStatus_append_not_found hfresh]
        simp [setOrderStatus, hid]
      show ((setOrderStatus db1.orders oid .CANCELLED).find?
          (fun o => o.id == oid)).map Order.status = some OrderStatus.CANCELLED
      rw [hsets]
      have hnone2 : db.orders.find? (fun o => o.id == oid) = none := by
        rw [List.find?_eq_none]
        intro o ho
        simp [hfresh o ho]
      rw [find?_append_of_none hnone2,
        List.find?_cons_of_pos _ (by simp [hid])]
      rfl
  · intro db' oid' uid' order' hfind' hst'
    simp [cancelOrder, hfind', hst']

/-- C6 witness: checking out quantity 1 of variant A (stock 5 → 4) and then
cancelling the created order returns stock to 5 and marks it CANCELLED. -/
theorem claim_C6_witness :
    ∃ db2, cancelOrder (createOrder dbOneItem 7 exAddr 100 "ORD-1").1 100 7
        = (db2, .ok (⟨100, 7, "ORD-1", [mkOrderItem productA variantA 1], 100,
            .CANCELLED, exAddr⟩ : Order))
      ∧ (∀ pid sku, stockOf db2.products pid sku = stockOf dbOneItem.products pid sku)
      ∧ (db2.orders.find? (fun o => o.id == 100)).map Order.status
          = some OrderStatus.CANCELLED := by
  have hcreate : createOrder dbOneItem 7 exAddr 100 "ORD-1"
      = ((createOrder dbOneItem 7 exAddr 100 "ORD-1").1,
        .ok (⟨100, 7, "ORD-1", [mkOrderItem productA variantA 1], 100,
          .PENDING, exAddr⟩ : Order)) := by
    simp [createOrder, createOrderTx, findCart, dbOneItem, processItems, findProduct,
      productA, variantA, decVariant, decVariants, mkOrderItem, mkSnapshot, jsImageHead]
  have h := (claim_C6_cancel_restores_stock dbOneItem 7 exAddr 100 "ORD-1"
    (createOrder dbOneItem 7 exAddr 100 "ORD-1").1
    (⟨100, 7, "ORD-1", [mkOrderItem productA variantA 1], 100, .PENDING, exAddr⟩ : Order)
    hcreate (by intro o ho; simp [dbOneItem] at ho)).1
  exact h

/-! ### Stock non-negativity (C4) -/

theorem decVariants_nonneg {vs : List Variant} {sku : String} {q : Nat}
    {vs' : List Variant} (h : decVariants vs sku q = some vs')
    (hn : ∀ v ∈ vs, 0 ≤ v.stock) : ∀ v ∈ vs', 0 ≤ v.stock := by
  induction vs generalizing vs' with
  | nil => simp [decVariants] at h
  | cons v0 rest ih =>
    by_cases h0 : v0.sku = sku ∧ (q : Int) ≤ v0.stock
    · rw [decVariants, if_pos h0] at h
      obtain hv := Option.some_inj.mp h
      subst hv
      intro v hv
      rcases List.mem_cons.mp hv with h1 | h1
      · subst h1
        simp only []
        have := hn v0 (List.mem_cons_self v0 rest)
        omega
      · exact hn v (List.mem_cons_of_mem v0 h1)
    · rw [decVariants, if_neg h0] at h
      cases hrec : decVariants rest sku q with
      | none => rw [hrec] at h; simp at h
      | some vs1 =>
        rw [hrec] at h
        obtain hv := Option.some_inj.mp h
        subst hv
        intro v hv
        rcases List.mem_cons.mp hv with h1 | h1
        · subst h1
          exact hn v (List.mem_cons_self v rest)
        · exact ih hrec (fun v' hv' => hn v' (List.mem_cons_of_mem v0 hv')) v h1

theorem decVariant_nonneg {ps : List Product} {pid : Nat} {sku : String} {q : Nat}
    {ps' : List Product} (h : decVariant ps pid sku q = some ps')
    (hn : stocksNonnegP ps) : stocksNonnegP ps' := by
  induction ps generalizing ps' with
  | nil => simp [decVariant] at h
  | cons p0 rest ih =>
    by_cases h0 : p0.id = pid
    · rw [decVariant, if_pos h0] at h
      cases hdec : decVariants p0.variants sku q with
      | none => rw [hdec] at h; simp at h
      | some vs' =>
        rw [hdec] at h
        obtain hv := Option.some_inj.mp h
        subst hv
        intro p hp
        rcases List.mem_cons.mp hp with h1 | h1
        · subst h1
          exact decVariants_nonneg hdec (hn p0 (List.mem_cons_self p0 rest))
        · exact hn p (List.mem_cons_of_mem p0 h1)
    · rw [decVariant, if_neg h0] at h
      cases hrec : decVariant rest pid sku q with
      | none => rw [hrec] at h; simp at h
      | some ps1 =>
        rw [hrec] at h
        obtain hv := Option.some_inj.mp h
        subst hv
        intro p hp
        rcases List.mem_cons.mp hp with h1 | h1
        · subst h1
          exact hn p (List.mem_cons_self p rest)
        · exact ih hrec (fun p' hp' => hn p' (List.mem_cons_of_mem p0 hp')) p h1

theorem processItems_nonneg {ps : List Product} {items : List CartItem}
    {ps' : List Product} {ois : List OrderItem} {t : ℚ}
    (h : processItems ps items = .ok (ps', ois, t))
    (hn : stocksNonnegP ps) : stocksNonnegP ps' := by
  induction items generalizing ps ois t with
  | nil =>
    simp only [processItems, Except.ok.injEq, Prod.mk.injEq] at h
    obtain ⟨h1, _, _⟩ := h
    subst h1
    exact hn
  | cons i rest ih =>
    cases hfp : findProduct ps i.productId with
    | none => simp [processItems, hfp] at h
    | some product =>
      cases hfv : product.variants.find? (fun v => v.sku == i.variantSku) with
      | none => simp [processItems, hfp, hfv] at h
      | some variant =>
        by_cases hlt : variant.stock < (i.quantity : Int)
        · simp [processItems, hfp, hfv, hlt] at h
        · cases hdec : decVariant ps product.id i.variantSku i.quantity with
          | none => simp [processItems, hfp, hfv, hlt, hdec] at h
          | some psMid =>
            cases hrec : processItems psMid rest with
            | error e => simp [processItems, hfp, hfv, hlt, hdec, hrec] at h
            | ok res =>
              obtain ⟨psR, oisR, tR⟩ := res
              have h' : psR = ps' ∧ mkOrderItem product variant i.quantity :: oisR = ois
                  ∧ variant.price * i.quantity + tR = t := by
                simpa [processItems, hfp, hfv, hlt, hdec, hrec] using h
              obtain ⟨h1, _, _⟩ := h'
              subst h1
              exact ih hrec (decVariant_nonneg hdec hn)

theorem incVariants_nonneg {vs : List Variant} {sku : String} {q : Nat}
    (hn : ∀ v ∈ vs, 0 ≤ v.stock) : ∀ v ∈ incVariants vs sku q, 0 ≤ v.stock := by
  induction vs with
  | nil => simp [incVariants]
  | cons v0 rest ih =>
    by_cases h0 : v0.sku = sku
    · simp only [incVariants, if_pos h0]
      intro v hv
      rcases List.mem_cons.mp hv with h1 | h1
      · subst h1
        simp only []
        have := hn v0 (List.mem_cons_self v0 rest)
        omega
      · exact hn v (List.mem_cons_of_mem v0 h1)
    · simp only [incVariants, if_neg h0]
      intro v hv
      rcases List.mem_cons.mp hv with h1 | h1
      · subst h1
        exact hn v (List.mem_cons_self v rest)
      · exact ih (fun v' hv' => hn v' (List.mem_cons_of_mem v0 hv')) v h1

theorem incVariant_nonneg {ps : List Product} {pid : Nat} {sku : String} {q : Nat}
    (hn : stocksNonnegP ps) : stocksNonnegP (incVariant ps pid sku q) := by
  induction ps with
  | nil => simp [incVariant, stocksNonnegP]
  | cons p0 rest ih =>
    by_cases h0 : p0.id = pid
    · simp only [incVariant, if_pos h0]
      intro p hp
      rcases List.mem_cons.mp hp with h1 | h1
      · subst h1
        exact incVariants_nonneg (hn p0 (List.mem_cons_self p0 rest))
      · exact hn p (List.mem_cons_of_mem p0 h1)
    · simp only [incVariant, if_neg h0]
      intro p hp
      rcases List.mem_cons.mp hp with h1 | h1
      · subst h1
        exact hn p (List.mem_cons_self p rest)
      · exact ih (fun p' hp' => hn p' (List.mem_cons_of_mem p0 hp')) p h1

theorem restoreStock_nonneg {ps : List Product} {ois : List OrderItem}
    (hn : stocksNonnegP ps) : stocksNonnegP (restoreStock ps ois) := by
  induction ois generalizing ps with
  | nil => exact hn
  | cons oi rest ih => exact ih (incVariant_nonneg hn)

theorem setProduct_mem {ps : List Product} {pid : Nat} {p' : Product}
    {x : Product} (h : x ∈ setProduct ps pid p') : x ∈ ps ∨ x = p' := by
  induction ps with
  | nil => simp [setProduct] at h
  | cons p0 rest ih =>
    by_cases h0 : p0.id = pid
    · rw [setProduct, if_pos h0] at h
      rcases List.mem_cons.mp h with h1 | h1
      · right; exact h1
      · left; exact List.mem_cons_of_mem p0 h1
    · rw [setProduct, if_neg h0] at h
      rcases List.mem_cons.mp h with h1 | h1
      · left
        rw [h1]
        exact List.mem_cons_self p0 rest
      · rcases ih h1 with h2 | h2
        · left; exact List.mem_cons_of_mem p0 h2
        · right; exact h2

/-- One validated operation preserves stock non-negativity. -/
theorem applyOp_stocksNonneg (db : DB) (op : Op) (hv : opValid op)
    (hn : stocksNonneg db) : stocksNonneg (applyOp db op) := by
  cases op with
  | createOrder uid addr oid onum =>
    show stocksNonnegP (createOrder db uid addr oid onum).1.products
    cases hres : (createOrder db uid addr oid onum).2 with
    | error e =>
      have heq : (createOrder db uid addr oid onum).1 = db := by
        cases htx : createOrderTx db uid addr oid onum with
        | ok r => rw [createOrder, htx] at hres; simp at hres
        | error e' => rw [createOrder, htx]
      rw [heq]
      exact hn
    | ok order =>
      have hco : createOrder db uid addr oid onum
          = ((createOrder db uid addr oid onum).1, .ok order) := by
        rw [← hres]
      obtain ⟨cart, ps', ois, t, _, _, hproc, _, hdb1⟩ := createOrder_ok_inversion hco
      rw [hdb1]
      exact processItems_nonneg hproc hn
  | cancelOrder oid uid =>
    show stocksNonnegP (cancelOrder db oid uid).1.products
    unfold cancelOrder
    cases db.orders.find? (fun o => o.id == oid && o.userId == uid) with
    | none => exact hn
    | some order =>
      dsimp only
      by_cases hst : order.status = .PENDING
      · rw [if_pos hst]
        exact restoreStock_nonneg hn
      · rw [if_neg hst]
        exact hn
  | updateStatus oid st =>
    show stocksNonnegP (updateStatus db oid st).1.products
    unfold updateStatus
    cases db.orders.find? (fun o => o.id == oid) with
    | none => exact hn
    | some order => exact hn
  | addToCart uid dto =>
    show stocksNonnegP (addToCart db uid dto).1.products
    unfold addToCart
    cases findProduct db.products dto.productId with
    | none => exact hn
    | some product =>
      dsimp only
      cases product.variants.find? (fun v => v.sku == dto.variantSku) with
      | none => exact hn
      | some variant =>
        dsimp only
        by_cases hlt : variant.stock < (dto.quantity : Int)
        · rw [if_pos hlt]
          exact hn
        · rw [if_neg hlt]
          cases findCart db uid with
          | some cart =>
            dsimp only
            cases mergeCartItem variant.stock dto cart.items with
            | error e => exact hn
            | ok items' => exact hn
          | none => exact hn
  | updateCartItem uid idx q =>
    show stocksNonnegP (updateCartItem db uid idx q).1.products
    unfold updateCartItem
    cases findCart db uid with
    | none => exact hn
    | some cart =>
      dsimp only
      cases cart.items[idx]? with
      | none => exact hn
      | some cartItem =>
        dsimp only
        cases findProduct db.products cartItem.productId with
        | none => exact hn
        | some product =>
          dsimp only
          cases product.variants.find? (fun v => v.sku == cartItem.variantSku) with
          | none => exact hn
          | some variant =>
            dsimp only
            by_cases hlt : variant.stock < (q : Int)
            · rw [if_pos hlt]
              exact hn
            · rw [if_neg hlt]
              exact hn
  | removeCartItem uid idx =>
    show stocksNonnegP (removeCartItem db uid idx).1.products
    unfold removeCartItem
    cases findCart db uid with
    | none => exact hn
    | some cart =>
      dsimp only
      cases cart.items[idx]? with
      | none => exact hn
      | some item => exact hn
  | clearCart uid => exact hn
  | createProduct newId dto =>
    show stocksNonnegP (createProduct db newId dto).1.products
    unfold createProduct
    cases validateVariantAttributes dto.options dto.variants with
    | error e => exact hn
    | ok u =>
      have hv' : ∀ v ∈ dto.variants, 0 ≤ v.stock ∧ 0 ≤ v.price := hv
      intro p hp
      rcases List.mem_append.mp hp with h1 | h1
      · exact hn p h1
      · intro v hvm
        have hp' : p = ⟨newId, dto.title, dto.basePrice, dto.options, dto.variants⟩ := by
          simpa using h1
        rw [hp'] at hvm
        exact (hv' v hvm).1
  | updateProduct pid dto =>
    show stocksNonnegP (updateProduct db pid dto).1.products
    unfold updateProduct
    cases hfp : findProduct db.products pid with
    | none => exact hn
    | some existing =>
      dsimp only
      cases (match dto.options, dto.variants with
        | some os, some vs => validateVariantAttributes os vs
        | none, some vs => validateVariantAttributes existing.options vs
        | _, none => (.ok () : Except SvcError Unit)) with
      | error e => exact hn
      | ok u =>
        have hv' : ∀ vs, dto.variants = some vs
            → ∀ v ∈ vs, 0 ≤ v.stock ∧ 0 ≤ v.price := hv
        intro p hp
        rcases setProduct_mem hp with h1 | h1
        · exact hn p h1
        · rw [h1]
          intro v hvm
          unfold applyProductUpdate at hvm
          cases hvar : dto.variants with
          | some vs =>
            rw [hvar] at hvm
            simp only [Option.getD_some] at hvm
            exact (hv' vs hvar v hvm).1
          | none =>
            rw [hvar] at hvm
            simp only [Option.getD_none] at hvm
            exact hn existing (mem_of_findProduct hfp) v hvm
  | deleteProduct pid =>
    show stocksNonnegP (deleteProduct db pid).1.products
    unfold deleteProduct
    cases findProduct db.products pid with
    | none => exact hn
    | some p =>
      dsimp only
      intro p' hp'
      exact hn p' (List.mem_of_mem_filter hp')

/-- C4: every variant's stock is a non-negative integer in every state
reachable by the system's validated operations: the conditional decrement
re-checks stock ≥ quantity at write time (failing the whole call otherwise),
the restoration write only adds, and product writes only accept zod-validated
non-negative stocks, so no operation ever drives a stock below zero. -/
theorem claim_C4_stock_never_negative (db db' : DB) (hn : stocksNonneg db)
    (hr : Reachable db db') : stocksNonneg db' := by
  induction hr with
  | refl => exact hn
  | step h op hv ih => exact applyOp_stocksNonneg _ op hv ih

/-- C4 witness: the scenario database has non-negative stocks and so does
the state reached by checking out user 7's cart. -/
theorem claim_C4_witness :
    stocksNonneg dbScenarioA
    ∧ stocksNonneg (applyOp dbScenarioA (.createOrder 7 exAddr 100 "ORD-1")) :=
  ⟨by unfold stocksNonneg stocksNonnegP; decide,
   claim_C4_stock_never_negative dbScenarioA _
     (by unfold stocksNonneg stocksNonnegP; decide)
     (Reachable.step (Reachable.refl dbScenarioA)
       (.createOrder 7 exAddr 100 "ORD-1") trivial)⟩

/-! ### Orders are only appended or status-updated (C5, C8) -/

theorem setOrderStatus_preserve {os : List Order} {oid : Nat} {st : OrderStatus} :
    ∀ o ∈ os, ∃ o' ∈ setOrderStatus os oid st,
      o'.id = o.id ∧ o'.items = o.items ∧ o'.userId = o.userId
      ∧ (o'.status = o.status ∨ (o.id = oid ∧ o'.status = st)) := by
  induction os with
  | nil => simp
  | cons o0 rest ih =>
    intro o ho
    by_cases h0 : o0.id = oid
    · simp only [setOrderStatus, if_pos h0]
      rcases List.mem_cons.mp ho with h1 | h1
      · subst h1
        exact ⟨{ o with status := st }, List.mem_cons_self _ _, rfl, rfl, rfl,
          Or.inr ⟨h0, rfl⟩⟩
      · exact ⟨o, List.mem_cons_of_mem _ h1, rfl, rfl, rfl, Or.inl rfl⟩
    · simp only [setOrderStatus, if_neg h0]
      rcases List.mem_cons.mp ho with h1 | h1
      · subst h1
        exact ⟨o, List.mem_cons_self _ _, rfl, rfl, rfl, Or.inl rfl⟩
      · obtain ⟨o', hm, h2, h3, h4, h5⟩ := ih o h1
        exact ⟨o', List.mem_cons_of_mem _ hm, h2, h3, h4, h5⟩

theorem setOrderStatus_map_id (os : List Order) (oid : Nat) (st : OrderStatus) :
    (setOrderStatus os oid st).map Order.id = os.map Order.id := by
  induction os with
  | nil => rfl
  | cons o0 rest ih =>
    by_cases h0 : o0.id = oid
    · simp [setOrderStatus, if_pos h0]
    · simp [setOrderStatus, if_neg h0, ih]

theorem addToCart_orders (db : DB) (uid : Nat) (dto : AddToCartDto) :
    (addToCart db uid dto).1.orders = db.orders := by
  unfold addToCart
  cases findProduct db.products dto.productId with
  | none => rfl
  | some product =>
    dsimp only
    cases product.variants.find? (fun v => v.sku == dto.variantSku) with
    | none => rfl
    | some variant =>
      dsimp only
      by_cases hlt : variant.stock < (dto.quantity : Int)
      · rw [if_pos hlt]
      · rw [if_neg hlt]
        cases findCart db uid with
        | some cart =>
          dsimp only
          cases mergeCartItem variant.stock dto cart.items with
          | error e => rfl
          | ok items' => rfl
        | none => rfl

theorem updateCartItem_orders (db : DB) (uid idx q : Nat) :
    (updateCartItem db uid idx q).1.orders = db.orders := by
  unfold updateCartItem
  cases findCart db uid with
  | none => rfl
  | some cart =>
    dsimp only
    cases cart.items[idx]? with
    | none => rfl
    | some cartItem =>
      dsimp only
      cases findProduct db.products cartItem.productId with
      | none => rfl
      | some product =>
        dsimp only
        cases product.variants.find? (fun v => v.sku == cartItem.variantSku) with
        | none => rfl
        | some variant =>
          dsimp only
          by_cases hlt : variant.stock < (q : Int)
          · rw [if_pos hlt]
          · rw [if_neg hlt]

theorem removeCartItem_orders (db : DB) (uid idx : Nat) :
    (removeCartItem db uid idx).1.orders = db.orders := by
  unfold removeCartItem
  cases findCart db uid with
  | none => rfl
  | some cart =>
    dsimp only
    cases cart.items[idx]? with
    | none => rfl
    | some item => rfl

theorem createProduct_orders (db : DB) (newId : Nat) (dto : CreateProductDto) :
    (createProduct db newId dto).1.orders = db.orders := by
  unfold createProduct
  cases validateVariantAttributes dto.options dto.variants with
  | error e => rfl
  | ok u => rfl

theorem updateProduct_orders (db : DB) (pid : Nat) (dto : UpdateProductDto) :
    (updateProduct db pid dto).1.orders = db.orders := by
  unfold updateProduct
  cases findProduct db.products pid with
  | none => rfl
  | some existing =>
    dsimp only
    cases (match dto.options, dto.variants with
      | some os, some vs => validateVariantAttributes os vs
      | none, some vs => validateVariantAttributes existing.options vs
      | _, none => (.ok () : Except SvcError Unit)) with
    | error e => rfl
    | ok u => rfl

theorem deleteProduct_orders (db : DB) (pid : Nat) :
    (deleteProduct db pid).1.orders = db.orders := by
  unfold deleteProduct
  cases findProduct db.products pid with
  | none => rfl
  | some p => rfl

theorem createOrder_orders (db : DB) (uid : Nat) (addr : Address) (oid : Nat)
    (onum : String) :
    (createOrder db uid addr oid onum).1.orders = db.orders
    ∨ ∃ order, order.id = oid ∧ order.status = .PENDING
        ∧ (createOrder db uid addr oid onum).1.orders = db.orders ++ [order] := by
  cases hres : (createOrder db uid addr oid onum).2 with
  | error e =>
    left
    have heq : (createOrder db uid addr oid onum).1 = db := by
      cases htx : createOrderTx db uid addr oid onum with
      | ok r => rw [createOrder, htx] at hres; simp at hres
      | error e' => rw [createOrder, htx]
    rw [heq]
  | ok order =>
    right
    have hco : createOrder db uid addr oid onum
        = ((createOrder db uid addr oid onum).1, .ok order) := by
      rw [← hres]
    obtain ⟨cart, ps', ois, t, _, _, _, hord, hdb1⟩ := createOrder_ok_inversion hco
    exact ⟨order, by rw [hord], by rw [hord], by rw [hdb1]⟩

theorem cancelOrder_orders (db : DB) (oid uid : Nat) :
    (cancelOrder db oid uid).1.orders = db.orders
    ∨ ∃ order, db.orders.find? (fun o => o.id == oid && o.userId == uid) = some order
        ∧ order.status = .PENDING
        ∧ (cancelOrder db oid uid).1.orders = setOrderStatus db.orders oid .CANCELLED := by
  unfold cancelOrder
  cases hf : db.orders.find? (fun o => o.id == oid && o.userId == uid) with
  | none => left; rfl
  | some order =>
    dsimp only
    by_cases hst : order.status = .PENDING
    · rw [if_pos hst]
      right
      exact ⟨order, rfl, hst, rfl⟩
    · rw [if_neg hst]
      left
      rfl

theorem updateStatus_orders (db : DB) (oid : Nat) (st : OrderStatus) :
    (updateStatus db oid st).1.orders = db.orders
    ∨ (updateStatus db oid st).1.orders = setOrderStatus db.orders oid st := by
  unfold updateStatus
  cases db.orders.find? (fun o => o.id == oid) with
  | none => left; rfl
  | some order => right; rfl

/-- Every operation either keeps an existing order untouched, appends new
orders, or rewrites a status; the order's id and items (hence its
snapshots) always survive. -/
theorem applyOp_orders_preserve (db : DB) (op : Op) :
    ∀ o ∈ db.orders, ∃ o' ∈ (applyOp db op).orders,
      o'.id = o.id ∧ o'.items = o.items := by
  intro o ho
  cases op with
  | createOrder uid addr oid onum =>
    rcases createOrder_orders db uid addr oid onum with h | ⟨order, _, _, h⟩
    · exact ⟨o, by rw [show applyOp db (.createOrder uid addr oid onum)
        = (createOrder db uid addr oid onum).1 from rfl, h]; exact ho, rfl, rfl⟩
    · refine ⟨o, ?_, rfl, rfl⟩
      rw [show applyOp db (.createOrder uid addr oid onum)
        = (createOrder db uid addr oid onum).1 from rfl, h]
      exact List.mem_append_left _ ho
  | cancelOrder oid uid =>
    rcases cancelOrder_orders db oid uid with h | ⟨order, _, _, h⟩
    · exact ⟨o, by rw [show applyOp db (.cancelOrder oid uid)
        = (cancelOrder db oid uid).1 from rfl, h]; exact ho, rfl, rfl⟩
    · obtain ⟨o', hm, h2, h3, _, _⟩ :=
        @setOrderStatus_preserve db.orders oid .CANCELLED o ho
      refine ⟨o', ?_, h2, h3⟩
      rw [show applyOp db (.cancelOrder oid uid) = (cancelOrder db oid uid).1 from rfl, h]
      exact hm
  | updateStatus oid st =>
    rcases updateStatus_orders db oid st with h | h
    · exact ⟨o, by rw [show applyOp db (.updateStatus oid st)
        = (updateStatus db oid st).1 from rfl, h]; exact ho, rfl, rfl⟩
    · obtain ⟨o', hm, h2, h3, _, _⟩ :=
        @setOrderStatus_preserve db.orders oid st o ho
      refine ⟨o', ?_, h2, h3⟩
      rw [show applyOp db (.updateStatus oid st) = (updateStatus db oid st).1 from rfl, h]
      exact hm
  | addToCart uid dto =>
    exact ⟨o, by rw [show applyOp db (.addToCart uid dto)
      = (addToCart db uid dto).1 from rfl, addToCart_orders]; exact ho, rfl, rfl⟩
  | updateCartItem uid idx q =>
    exact ⟨o, by rw [show applyOp db (.updateCartItem uid idx q)
      = (updateCartItem db uid idx q).1 from rfl, updateCartItem_orders]; exact ho,
      rfl, rfl⟩
  | removeCartItem uid idx =>
    exact ⟨o, by rw [show applyOp db (.removeCartItem uid idx)
      = (removeCartItem db uid idx).1 from rfl, removeCartItem_orders]; exact ho,
      rfl, rfl⟩
  | clearCart uid => exact ⟨o, ho, rfl, rfl⟩
  | createProduct newId dto =>
    exact ⟨o, by rw [show applyOp db (.createProduct newId dto)
      = (createProduct db newId dto).1 from rfl, createProduct_orders]; exact ho,
      rfl, rfl⟩
  | updateProduct pid dto =>
    exact ⟨o, by rw [show applyOp db (.updateProduct pid dto)
      = (updateProduct db pid dto).1 from rfl, updateProduct_orders]; exact ho,
      rfl, rfl⟩
  | deleteProduct pid =>
    exact ⟨o, by rw [show applyOp db (.deleteProduct pid)
      = (deleteProduct db pid).1 from rfl, deleteProduct_orders]; exact ho, rfl, rfl⟩

/-- C5: the snapshot (and the whole item list) of an order is never mutated
by any subsequent sequence of operations — status updates, cancellation,
product changes and deletions included; in particular a price change of the
underlying variant leaves the snapshot price as it was at purchase time. -/
theorem claim_C5_snapshot_immutable (db db' : DB) (hr : Reachable db db') :
    ∀ o ∈ db.orders, ∃ o' ∈ db'.orders, o'.id = o.id ∧ o'.items = o.items := by
  induction hr with
  | refl => exact fun o ho => ⟨o, ho, rfl, rfl⟩
  | step h op hv ih =>
    intro o ho
    obtain ⟨o', hm', hid', hit'⟩ := ih o ho
    obtain ⟨o'', hm'', hid'', hit''⟩ := applyOp_orders_preserve _ op o' hm'
    exact ⟨o'', hm'', hid''.trans hid', hit''.trans hit'⟩

/-- C5 witness: raising variant A's price from 100 to 150 leaves the
previously created order's snapshot price at 100. -/
theorem claim_C5_witness :
    (∃ o' ∈ (applyOp dbWithOrder (.updateProduct 1 raisePriceDto)).orders,
      o'.id = exOrder.id ∧ o'.items = exOrder.items)
    ∧ exOrder.items.map (fun oi => oi.snapshot.price) = [100]
    ∧ priceOf (applyOp dbWithOrder (.updateProduct 1 raisePriceDto)).products
        1 "SKU-A" = some 150 := by
  refine ⟨claim_C5_snapshot_immutable dbWithOrder _
    (Reachable.step (Reachable.refl dbWithOrder) (.updateProduct 1 raisePriceDto) ?_)
    exOrder (List.mem_singleton_self exOrder), rfl, rfl⟩
  intro vs hvs
  have hvs' : [{ variantA with price := 150 }] = vs := by
    simpa [raisePriceDto] using hvs
  subst hvs'
  intro v hv
  have hv' : v = { variantA with price := 150 } := by simpa using hv
  subst hv'
  constructor
  · norm_num [variantA]
  · norm_num [variantA]

/-! ### The order-status lifecycle (C8) -/

theorem eq_of_ordersWf {os : List Order} (hwf : (os.map Order.id).Nodup)
    {o o' : Order} (ho : o ∈ os) (ho' : o' ∈ os) (h : o.id = o'.id) : o = o' :=
  List.inj_on_of_nodup_map hwf ho ho' h

/-- Id-freshness keeps the orders collection's `_id`s pairwise distinct
across every operation. -/
theorem applyOp_ordersWf (db : DB) (op : Op) (hok : opOk db op)
    (hwf : ordersWf db) : ordersWf (applyOp db op) := by
  cases op with
  | createOrder uid addr oid onum =>
    show ordersWf (createOrder db uid addr oid onum).1
    rcases createOrder_orders db uid addr oid onum with h | ⟨order, hid, _, h⟩
    · unfold ordersWf
      rw [h]
      exact hwf
    · unfold ordersWf
      rw [h, List.map_append]
      rw [List.nodup_append]
      refine ⟨hwf, List.nodup_singleton _, ?_⟩
      intro x hx hmem
      simp only [List.map_cons, List.map_nil, List.mem_singleton] at hmem
      obtain ⟨o, ho, hoid⟩ := List.mem_map.mp hx
      have hfresh : ∀ o' ∈ db.orders, o'.id ≠ oid := hok
      exact hfresh o ho (by rw [hoid, hmem, hid])
  | cancelOrder oid uid =>
    show ordersWf (cancelOrder db oid uid).1
    rcases cancelOrder_orders db oid uid with h | ⟨order, _, _, h⟩
    · unfold ordersWf
      rw [h]
      exact hwf
    · unfold ordersWf
      rw [h, setOrderStatus_map_id]
      exact hwf
  | updateStatus oid st =>
    show ordersWf (updateStatus db oid st).1
    rcases updateStatus_orders db oid st with h | h
    · unfold ordersWf
      rw [h]
      exact hwf
    · unfold ordersWf
      rw [h, setOrderStatus_map_id]
      exact hwf
  | addToCart uid dto =>
    show ordersWf (addToCart db uid dto).1
    unfold ordersWf
    rw [addToCart_orders]
    exact hwf
  | updateCartItem uid idx q =>
    show ordersWf (updateCartItem db uid idx q).1
    unfold ordersWf
    rw [updateCartItem_orders]
    exact hwf
  | removeCartItem uid idx =>
    show ordersWf (removeCartItem db uid idx).1
    unfold ordersWf
    rw [removeCartItem_orders]
    exact hwf
  | clearCart uid => exact hwf
  | createProduct newId dto =>
    show ordersWf (createProduct db newId dto).1
    unfold ordersWf
    rw [createProduct_orders]
    exact hwf
  | updateProduct pid dto =>
    show ordersWf (updateProduct db pid dto).1
    unfold ordersWf
    rw [updateProduct_orders]
    exact hwf
  | deleteProduct pid =>
    show ordersWf (deleteProduct db pid).1
    unfold ordersWf
    rw [deleteProduct_orders]
    exact hwf

/-- A single non-administrative operation never moves an order's status
backward: it leaves the status unchanged or cancels a PENDING order. -/
theorem applyOp_status_forward (db : DB) (op : Op) (hwf : ordersWf db)
    (hna : nonAdmin op) :
    ∀ o ∈ db.orders, ∃ o' ∈ (applyOp db op).orders, o'.id = o.id
      ∧ o'.items = o.items
      ∧ (o'.status = o.status ∨ (o.status = .PENDING ∧ o'.status = .CANCELLED)) := by
  intro o ho
  cases op with
  | updateStatus oid st => exact absurd hna (by simp [nonAdmin])
  | cancelOrder oid uid =>
    rcases cancelOrder_orders db oid uid with h | ⟨order, hfind, hpending, h⟩
    · exact ⟨o, by rw [show applyOp db (.cancelOrder oid uid)
        = (cancelOrder db oid uid).1 from rfl, h]; exact ho, rfl, rfl, Or.inl rfl⟩
    · obtain ⟨o', hm, h2, h3, _, h5⟩ :=
        @setOrderStatus_preserve db.orders oid .CANCELLED o ho
      refine ⟨o', ?_, h2, h3, ?_⟩
      · rw [show applyOp db (.cancelOrder oid uid)
          = (cancelOrder db oid uid).1 from rfl, h]
        exact hm
      · rcases h5 with h5 | ⟨hoid, hst⟩
        · exact Or.inl h5
        · right
          have horder : order ∈ db.orders := List.mem_of_find?_eq_some hfind
          have hordid : order.id = oid := by
            have := List.find?_some hfind
            simp at this
            exact this.1
          have : o = order := eq_of_ordersWf hwf ho horder (by rw [hoid, hordid])
          exact ⟨by rw [this]; exact hpending, hst⟩
  | createOrder uid addr oid onum =>
    rcases createOrder_orders db uid addr oid onum with h | ⟨order, _, _, h⟩
    · exact ⟨o, by rw [show applyOp db (.createOrder uid addr oid onum)
        = (createOrder db uid addr oid onum).1 from rfl, h]; exact ho, rfl, rfl,
        Or.inl rfl⟩
    · refine ⟨o, ?_, rfl, rfl, Or.inl rfl⟩
      rw [show applyOp db (.createOrder uid addr oid onum)
        = (createOrder db uid addr oid onum).1 from rfl, h]
      exact List.mem_append_left _ ho
  | addToCart uid dto =>
    exact ⟨o, by rw [show applyOp db (.addToCart uid dto)
      = (addToCart db uid dto).1 from rfl, addToCart_orders]; exact ho, rfl, rfl,
      Or.inl rfl⟩
  | updateCartItem uid idx q =>
    exact ⟨o, by rw [show applyOp db (.updateCartItem uid idx q)
      = (updateCartItem db uid idx q).1 from rfl, updateCartItem_orders]; exact ho,
      rfl, rfl, Or.inl rfl⟩
  | removeCartItem uid idx =>
    exact ⟨o, by rw [show applyOp db (.removeCartItem uid idx)
      = (removeCartItem db uid idx).1 from rfl, removeCartItem_orders]; exact ho,
      rfl, rfl, Or.inl rfl⟩
  | clearCart uid => exact ⟨o, ho, rfl, rfl, Or.inl rfl⟩
  | createProduct newId dto =>
    exact ⟨o, by rw [show applyOp db (.createProduct newId dto)
      = (createProduct db newId dto).1 from rfl, createProduct_orders]; exact ho,
      rfl, rfl, Or.inl rfl⟩
  | updateProduct pid dto =>
    exact ⟨o, by rw [show applyOp db (.updateProduct pid dto)
      = (updateProduct db pid dto).1 from rfl, updateProduct_orders]; exact ho,
      rfl, rfl, Or.inl rfl⟩
  | deleteProduct pid =>
    exact ⟨o, by rw [show applyOp db (.deleteProduct pid)
      = (deleteProduct db pid).1 from rfl, deleteProduct_orders]; exact ho,
      rfl, rfl, Or.inl rfl⟩

theorem userReachable_ordersWf {db db' : DB} (hwf : ordersWf db)
    (hr : UserReachable db db') : ordersWf db' := by
  induction hr with
  | refl => exact hwf
  | step h op hv hok hna ih => exact applyOp_ordersWf _ op hok ih

/-- C8 counterexample: the administrative status update performs no
transition check at all, so it moves a DELIVERED order straight back to
PENDING — the claim's "no operation ever moves it back" is false for
`updateStatus`. -/
theorem claim_C8_counterexample :
    ((dbDeliveredOrder.orders.find? (fun o => o.id == 100)).map Order.status
      = some OrderStatus.DELIVERED)
    ∧ (updateStatus dbDeliveredOrder 100 .PENDING).2
        = .ok { exOrder with status := .PENDING }
    ∧ (((updateStatus dbDeliveredOrder 100 .PENDING).1.orders.find?
        (fun o => o.id == 100)).map Order.status = some OrderStatus.PENDING) := by
  refine ⟨rfl, ?_, rfl⟩
  rfl

/-- C8 (amended): excluding the administrative status update — which sets
the status unconditionally — no operation ever moves an order backward in
the lifecycle: along any admin-free sequence an order's status either stays
what it was or moves from PENDING to CANCELLED. -/
theorem claim_C8_no_backward_transition (db db' : DB) (hwf : ordersWf db)
    (hr : UserReachable db db') :
    ∀ o ∈ db.orders, ∃ o' ∈ db'.orders, o'.id = o.id
      ∧ (o'.status = o.status ∨ (o.status = .PENDING ∧ o'.status = .CANCELLED)) := by
  induction hr with
  | refl => exact fun o ho => ⟨o, ho, rfl, Or.inl rfl⟩
  | step h op hv hok hna ih =>
    intro o ho
    obtain ⟨o', hm', hid', hst'⟩ := ih o ho
    obtain ⟨o'', hm'', hid'', _, hst''⟩ :=
      applyOp_status_forward _ op (userReachable_ordersWf hwf h) hna o' hm'
    refine ⟨o'', hm'', hid''.trans hid', ?_⟩
    rcases hst' with hst' | ⟨hp, hc⟩
    · rcases hst'' with hst'' | ⟨hp', hc'⟩
      · exact Or.inl (hst''.trans hst')
      · exact Or.inr ⟨hst' ▸ hp', hc'⟩
    · rcases hst'' with hst'' | ⟨hp', hc'⟩
      · exact Or.inr ⟨hp, hst''.trans hc⟩
      · rw [hc] at hp'
        exact absurd hp' (by simp)

/-- C8 amended witness: cancelling the PENDING order of `dbWithOrder` is a
forward transition (PENDING → CANCELLED) and preserves the order's id. -/
theorem claim_C8_witness :
    ordersWf dbWithOrder
    ∧ ∀ o ∈ dbWithOrder.orders,
        ∃ o' ∈ (applyOp dbWithOrder (.cancelOrder 100 7)).orders, o'.id = o.id
        ∧ (o'.status = o.status ∨ (o.status = .PENDING ∧ o'.status = .CANCELLED)) :=
  ⟨by unfold ordersWf; decide,
   claim_C8_no_backward_transition dbWithOrder _ (by unfold ordersWf; decide)
     (UserReachable.step (UserReachable.refl dbWithOrder) (.cancelOrder 100 7)
       trivial trivial trivial)⟩

/-! ### Variant-attribute validation (C9) -/

/-- C9 is violated by the code: `ProductsService.update` validates variant
attributes only when the dto carries variants, so an options-only update is
accepted without any check and leaves the stored product with a variant
attribute key (`Size`) that is not among its new option names (`Color`) —
breaking the documented always-holds subset invariant. -/
theorem claim_C9_options_only_update_bypasses_validation :
    (updateProduct dbProductB 2 optionsOnlyDto).2
      = .ok { productB with options := [{ name := "Color", values := ["Red"] }] }
    ∧ attrsSubsetOptions productB
    ∧ ¬ attrsSubsetOptions
        { productB with options := [{ name := "Color", values := ["Red"] }] }
    ∧ (updateProduct dbProductB 2 optionsOnlyDto).1.products
        = [{ productB with options := [{ name := "Color", values := ["Red"] }] }] := by
  refine ⟨rfl, ?_, ?_, rfl⟩
  · unfold attrsSubsetOptions
    decide
  · unfold attrsSubsetOptions
    decide

/-! ### Cart merging (C10) -/

/-- `addToCart`'s merge step at the first line item carrying the dto's
product/SKU pair: re-validate the combined quantity and update in place —
never push a second line. -/
theorem mergeCartItem_found {stock : Int} {dto : AddToCartDto}
    {pre post : List CartItem} {it0 : CartItem}
    (hpre : ∀ i ∈ pre, ¬(i.productId = dto.productId ∧ i.variantSku = dto.variantSku))
    (hit : it0.productId = dto.productId ∧ it0.variantSku = dto.variantSku) :
    mergeCartItem stock dto (pre ++ it0 :: post)
      = if stock < ((it0.quantity + dto.quantity : Nat) : Int)
        then .error (.insufficientStockCombined stock it0.quantity dto.quantity)
        else .ok (pre ++ { it0 with quantity := it0.quantity + dto.quantity } :: post) := by
  induction pre with
  | nil =>
    simp only [List.nil_append]
    rw [mergeCartItem, if_pos hit]
  | cons p rest ih =>
    simp only [List.cons_append]
    rw [mergeCartItem, if_neg (hpre p (List.mem_cons_self p rest))]
    rw [ih fun i hi => hpre i (List.mem_cons_of_mem p hi)]
    by_cases hc : stock < ((it0.quantity + dto.quantity : Nat) : Int)
    · rw [if_pos hc, if_pos hc]
      rfl
    · rw [if_neg hc, if_neg hc]
      rfl

/-- C10: when the cart already holds a line item with the dto's product id
and SKU (first such occurrence `it0`), `addToCart` updates that line in
place — summing quantities, never appending a second line — and fails with
the combined insufficient-stock error leaving the state untouched whenever
existing + requested exceeds live stock, even though the requested quantity
alone is within stock. -/
theorem claim_C10_addToCart_merges (db : DB) (uid : Nat) (dto : AddToCartDto)
    (product : Product) (variant : Variant) (cart : Cart)
    (pre post : List CartItem) (it0 : CartItem)
    (hp : findProduct db.products dto.productId = some product)
    (hv : product.variants.find? (fun v => v.sku == dto.variantSku) = some variant)
    (hq : (dto.quantity : Int) ≤ variant.stock)
    (hc : findCart db uid = some cart)
    (hsplit : cart.items = pre ++ it0 :: post)
    (hpre : ∀ i ∈ pre, ¬(i.productId = dto.productId ∧ i.variantSku = dto.variantSku))
    (hit : it0.productId = dto.productId ∧ it0.variantSku = dto.variantSku) :
    (((it0.quantity + dto.quantity : Nat) : Int) ≤ variant.stock →
      addToCart db uid dto
        = (⟨db.products,
            setCartItems db.carts uid
              (pre ++ { it0 with quantity := it0.quantity + dto.quantity } :: post),
            db.orders⟩,
          .ok (pre ++ { it0 with quantity := it0.quantity + dto.quantity } :: post)))
    ∧ (variant.stock < ((it0.quantity + dto.quantity : Nat) : Int) →
      addToCart db uid dto
        = (db, .error (.insufficientStockCombined variant.stock it0.quantity
            dto.quantity))) := by
  have hmerge := @mergeCartItem_found variant.stock dto pre post it0 hpre hit
  constructor
  · intro hle
    have hnlt : ¬(variant.stock < ((it0.quantity + dto.quantity : Nat) : Int)) :=
      not_lt.mpr hle
    rw [← hsplit] at hmerge
    rw [if_neg hnlt] at hmerge
    simp [addToCart, hp, hv, not_lt.mpr hq, hc, hmerge]
  · intro hgt
    rw [← hsplit] at hmerge
    rw [if_pos hgt] at hmerge
    simp [addToCart, hp, hv, not_lt.mpr hq, hc, hmerge]

/-- C10 witness: with `{qty 2}` of variant A already in the cart (stock 5),
adding 2 more merges to a single line of quantity 4; adding 4 more fails
with the combined error (2 + 4 > 5) although 4 alone is within stock. -/
theorem claim_C10_witness :
    (addToCart dbScenarioA 7 ⟨1, "SKU-A", 2⟩
      = (⟨dbScenarioA.products,
          setCartItems dbScenarioA.carts 7
            [{ productId := 1, variantSku := "SKU-A", quantity := 4 }],
          dbScenarioA.orders⟩,
        .ok [{ productId := 1, variantSku := "SKU-A", quantity := 4 }]))
    ∧ (addToCart dbScenarioA 7 ⟨1, "SKU-A", 4⟩
      = (dbScenarioA, .error (.insufficientStockCombined 5 2 4))) := by
  constructor
  · exact (claim_C10_addToCart_merges dbScenarioA 7 ⟨1, "SKU-A", 2⟩ productA variantA
      ⟨7, [{ productId := 1, variantSku := "SKU-A", quantity := 2 }]⟩ [] []
      { productId := 1, variantSku := "SKU-A", quantity := 2 } rfl rfl (by decide)
      rfl rfl (by intro i hi; simp at hi) (by decide)).1 (by decide)
  · exact (claim_C10_addToCart_merges dbScenarioA 7 ⟨1, "SKU-A", 4⟩ productA variantA
      ⟨7, [{ productId := 1, variantSku := "SKU-A", quantity := 2 }]⟩ [] []
      { productId := 1, variantSku := "SKU-A", quantity := 2 } rfl rfl (by decide)
      rfl rfl (by intro i hi; simp at hi) (by decide)).2 (by decide)

end ECom
